import Mathlib

/-!
Verification of the merge/render engine of the Confluence checklist
syncer (src/confluence-checklist-manager.ts) via a shallow embedding.

Storage-format documents are modelled as ordered trees (`XNode`): the
cheerio load/serialize round trip with xmlMode and decodeEntities
disabled is the identity on such trees, so tree surgery stands in for
cheerio's in-place DOM mutation and string splicing.  All strings kept
in text nodes are the raw (entity-escaped) strings the source code
compares, because decodeEntities is false throughout.
-/

/-- JS whitespace class used by the source regexes and by trim. -/
def wsChar (c : Char) : Bool :=
  c = ' ' || c = '\t' || c = '\n' || c = '\r' || c = Char.ofNat 11 || c = Char.ofNat 12

/-- Drop leading and trailing whitespace from a char list, as JS trim does. -/
def trimList (l : List Char) : List Char :=
  ((l.dropWhile wsChar).reverse.dropWhile wsChar).reverse

/-- Embedding of the JS String.prototype.trim used throughout the source. -/
def trimStr (s : String) : String :=
  String.mk (trimList s.data)

/-- Collapse consecutive spaces into one (second phase of normalizeXml). -/
def squeeze : List Char → List Char
  | [] => []
  | [c] => [c]
  | a :: b :: t => if a = ' ' && b = ' ' then squeeze (b :: t) else a :: squeeze (b :: t)

/-- Embedding of normalizeXml: every whitespace run becomes a single space,
then ends are trimmed (`x.replace(/\s+/g, " ").trim()`). -/
def normalizeXml (x : String) : String :=
  String.mk (trimList (squeeze (x.data.map fun c => if wsChar c then ' ' else c)))

/-- Escape one character the way escapeXml does. -/
def escChar (c : Char) : List Char :=
  if c = '&' then "&amp;".data
  else if c = '<' then "&lt;".data
  else if c = '>' then "&gt;".data
  else if c = '"' then "&quot;".data
  else if c = '\'' then "&#39;".data
  else [c]

/-- Embedding of escapeXml: the source applies five global single-character
replacements in sequence (& first); since no later pass rewrites the
characters produced by an earlier one, this equals a single char-wise pass. -/
def escapeXml (s : String) : String :=
  String.mk (s.data.flatMap escChar)

/-- Decimal digit character. -/
def digitChar (d : Nat) : Char := Char.ofNat (48 + d)

/-- Decimal digit list with a structural fuel bound (any fuel above the
value itself suffices, see natDigitsGo_fuel below). -/
def natDigitsGo : Nat → Nat → List Char
  | 0, _ => []
  | fuel + 1, n =>
      if n < 10 then [digitChar n]
      else natDigitsGo fuel (n / 10) ++ [digitChar (n % 10)]

/-- Decimal digit list of a natural number (mirrors JS String(number) on the
integer task-id candidates). -/
def natDigits (n : Nat) : List Char := natDigitsGo (n + 1) n

/-- Embedding of JS String(next) on the natural-number task-id candidate. -/
def natToString (n : Nat) : String := String.mk (natDigits n)

/-- Value of a digit list, to invert natDigits. -/
def digitsVal (l : List Char) : Nat :=
  l.foldl (fun a c => 10 * a + (c.toNat - 48)) 0

/-- All-digit nonempty strings: the shape of every allocated task id. -/
def digitStr (s : String) : Prop :=
  s ≠ "" ∧ ∀ c ∈ s.data, 48 ≤ c.toNat ∧ c.toNat ≤ 57

/-- Concatenation of a list of strings. -/
def catStrs : List String → String
  | [] => ""
  | s :: t => s ++ catStrs t

mutual
/-- Storage-format document node: an element with tag, attributes and
children, or a raw text node (entities kept undecoded). -/
inductive XNode where
  | elem (tag : String) (attrs : List (String × String)) (children : XForest)
  | text (s : String)
/-- Child list of an element (a mutual inductive so that every embedded
operation is structurally recursive and kernel-computable). -/
inductive XForest where
  | nil
  | cons (hd : XNode) (tl : XForest)
end

def XForest.toList : XForest → List XNode
  | .nil => []
  | .cons n t => n :: XForest.toList t

def XForest.ofList : List XNode → XForest
  | [] => .nil
  | n :: t => .cons n (XForest.ofList t)

/-- Element constructor taking a plain child list. -/
def xel (t : String) (a : List (String × String)) (c : List XNode) : XNode :=
  .elem t a (XForest.ofList c)

/-- Child list of a node. -/
def childrenOf : XNode → List XNode
  | .elem _ _ c => c.toList
  | .text _ => []

mutual
/-- One node followed by all its descendants, in document (pre-)order. -/
def nodeAll : XNode → List XNode
  | .text s => [.text s]
  | .elem t a c => .elem t a c :: fAll c
def fAll : XForest → List XNode
  | .nil => []
  | .cons n t => nodeAll n ++ fAll t
end

/-- All nodes of a forest in document order: the traversal order cheerio
selectors iterate in. -/
def forestAll (ns : List XNode) : List XNode := ns.flatMap nodeAll

/-- Strict descendants of one node in document order (cheerio .find scope). -/
def strictDesc (n : XNode) : List XNode := forestAll (childrenOf n)

/-- Concatenated text of a forest (cheerio .text() with decodeEntities off):
the text leaves in document order, joined. -/
def textOfF (ns : List XNode) : String :=
  catStrs ((forestAll ns).filterMap fun n =>
    match n with
    | .text s => some s
    | .elem _ _ _ => none)

/-- Text of one node. -/
def textOfN (n : XNode) : String := textOfF [n]

/-- Text of a .first() selection (empty selection yields ""). -/
def textOfOpt : Option XNode → String
  | some n => textOfN n
  | none => ""

/-- First node of a list satisfying p (cheerio .first() on a selection). -/
def firstEl (p : XNode → Bool) (ns : List XNode) : Option XNode :=
  ns.find? p

/-- Serialize one attribute. -/
def attrStr (a : String × String) : String :=
  " " ++ a.1 ++ "=\"" ++ a.2 ++ "\""

mutual
/-- Serialize one node back to storage markup, as cheerio $.xml() does in
xmlMode (childless elements self-close). -/
def xmlOfN : XNode → String
  | .text s => s
  | .elem t a .nil => "<" ++ t ++ catStrs (a.map attrStr) ++ "/>"
  | .elem t a (.cons c cs) =>
      "<" ++ t ++ catStrs (a.map attrStr) ++ ">" ++ xmlOfFo (.cons c cs) ++
        "</" ++ t ++ ">"
def xmlOfFo : XForest → String
  | .nil => ""
  | .cons n t => xmlOfN n ++ xmlOfFo t
end

/-- Serialize a forest (a whole document or a selection). -/
def xmlOfF (ns : List XNode) : String := catStrs (ns.map xmlOfN)

/-- First attribute value for a name (cheerio attribute selector). -/
def attrOf (n : XNode) (key : String) : Option String :=
  match n with
  | .elem _ a _ => a.lookup key
  | .text _ => none

/-- Tag test for elements. -/
def isElemNamed (tag : String) (n : XNode) : Bool :=
  match n with
  | .elem t _ _ => t = tag
  | .text _ => false

/-- Selector ac\:structured-macro[ac\:name="panel"]. -/
def isPanelEl (n : XNode) : Bool :=
  isElemNamed "ac:structured-macro" n && attrOf n "ac:name" = some "panel"

/-- Selector ac\:structured-macro[ac\:name="anchor"]. -/
def isAnchorEl (n : XNode) : Bool :=
  isElemNamed "ac:structured-macro" n && attrOf n "ac:name" = some "anchor"

/-- Selector ac\:parameter[ac\:name="title"]. -/
def isTitleParam (n : XNode) : Bool :=
  isElemNamed "ac:parameter" n && attrOf n "ac:name" = some "title"

/-- Selector ac\:parameter[ac\:name=""]. -/
def isEmptyParam (n : XNode) : Bool :=
  isElemNamed "ac:parameter" n && attrOf n "ac:name" = some ""

def isTaskEl (n : XNode) : Bool := isElemNamed "ac:task" n

def isTaskBodyEl (n : XNode) : Bool := isElemNamed "ac:task-body" n

def isTaskStatusEl (n : XNode) : Bool := isElemNamed "ac:task-status" n

def isTaskIdEl (n : XNode) : Bool := isElemNamed "ac:task-id" n

/-- Title text of a panel macro:
find("ac\:parameter[ac\:name=title]").first().text().trim(). -/
def panelTitleText (n : XNode) : String :=
  trimStr (textOfOpt (firstEl isTitleParam (strictDesc n)))

/-- First panel macro on the page whose title parameter matches, in document
order (the each-loop with early exit in the source). -/
def findPanel (doc : List XNode) (panelTitle : String) : Option XNode :=
  (forestAll doc).find? fun n => isPanelEl n && panelTitleText n = panelTitle

/-- Existing task facts the sync retains (type ExistingTask in the source;
bodyXml is the serialized first ac:task-body selection, kept as its node
list: empty list for an empty selection, one element otherwise). -/
structure ExistingTask where
  status : String
  taskId : Option String
  body : List XNode

/-- JS Map.get on an insertion-ordered association list. -/
def mapGet (m : List (String × ExistingTask)) (k : String) : Option ExistingTask :=
  (m.find? fun p => p.1 = k).map Prod.snd

/-- JS Map.set: update in place if the key exists, else append. -/
def mapSet (m : List (String × ExistingTask)) (k : String) (v : ExistingTask) :
    List (String × ExistingTask) :=
  if m.any fun p => p.1 = k then
    m.map fun p => if p.1 = k then (k, v) else p
  else m ++ [(k, v)]

/-- The anchor id discovered inside one task: for each anchor macro within
the first ac:task-body, take the first ac:parameter[ac:name=""] descendant
text (trimmed); a nonempty value overwrites, so the last one wins. -/
def taskAnchorOf (t : XNode) : Option String :=
  let bodySel := firstEl isTaskBodyEl (strictDesc t)
  let macros := match bodySel with
    | some b => (strictDesc b).filter isAnchorEl
    | none => []
  macros.foldl
    (fun acc a =>
      let v := trimStr (textOfOpt (firstEl isEmptyParam (strictDesc a)))
      if v = "" then acc else some v)
    none

/-- The facts read from one task element: status and task-id first-descendant
texts with their fallbacks, and the serialized first task-body selection. -/
def taskDataOf (t : XNode) : ExistingTask :=
  let st := trimStr (textOfOpt (firstEl isTaskStatusEl (strictDesc t)))
  let tid := trimStr (textOfOpt (firstEl isTaskIdEl (strictDesc t)))
  { status := if st = "" then "incomplete" else st
    taskId := if tid = "" then none else some tid
    body := match firstEl isTaskBodyEl (strictDesc t) with
      | some b => [b]
      | none => [] }

/-- The indexing loop over the tasks of the selected panel. -/
def tasksFold (ts : List XNode) : List (String × ExistingTask) :=
  ts.foldl
    (fun m t =>
      match taskAnchorOf t with
      | some k => mapSet m k (taskDataOf t)
      | none => m)
    []

/-- Embedding of readExistingTasks: select the first panel with the given
title; index its ac:task descendants by their discovered anchor id. -/
def readExistingTasks (doc : List XNode) (panelTitle : String) :
    List (String × ExistingTask) :=
  match findPanel doc panelTitle with
  | none => []
  | some p => tasksFold ((strictDesc p).filter isTaskEl)

/-- Embedding of collectAllTaskIdsOnPage: every nonempty trimmed ac:task-id
text on the whole page, as an insertion-ordered dedup list (a JS Set). -/
def collectAllTaskIdsOnPage (doc : List XNode) : List String :=
  ((forestAll doc).filter isTaskIdEl).foldl
    (fun acc e =>
      let id := trimStr (textOfN e)
      if id = "" || decide (id ∈ acc) then acc else acc ++ [id])
    []

/-- The while loop of allocateTaskId: starting from the seed, the first
candidate whose decimal string is not yet reserved.  Fuel is one more than
the reserved-set size, which the pigeonhole argument below shows suffices. -/
def allocGo : Nat → List String → Nat → Nat
  | 0, _, n => n
  | fuel + 1, s, n => if natToString n ∈ s then allocGo fuel s (n + 1) else n

/-- Embedding of allocateTaskId: seed from the clock (passed explicitly in
place of Date.now()), probe upward for a free decimal string, reserve and
return it. -/
def allocateTaskId (ids : List String) (now : Nat) : String × List String :=
  let id := natToString (allocGo (ids.length + 1) ids now)
  (id, ids ++ [id])

/-- Checklist item: external identifier plus display text. -/
structure ChecklistItem where
  id : String
  text : String

/-- Checklist section: optional heading ("" meaning absent, the JS falsy
check) and ordered items. -/
structure ChecklistSection where
  heading : String
  items : List ChecklistItem

/-- Checklist specification ("" again modelling an absent optional field). -/
structure ChecklistSpec where
  title : String
  panelTitle : String
  sections : List ChecklistSection

/-- The panel title actually used: spec.panelTitle || DEFAULT_PANEL_TITLE. -/
def panelTitleOf (spec : ChecklistSpec) : String :=
  if spec.panelTitle = "" then "Checklist (managed)" else spec.panelTitle

/-- Embedding of anchorXml: the hidden marker macro for a stable id. -/
def anchorNodeOf (stableId : String) : XNode :=
  xel "ac:structured-macro" [("ac:name", "anchor")]
    [xel "ac:parameter" [("ac:name", "")] [.text (escapeXml stableId)]]

/-- Embedding of buildNewTaskBodyXml. -/
def buildNewTaskBodyXml (anchorId : String) (txt : String) : XNode :=
  xel "ac:task-body" []
    [xel "p" [] [anchorNodeOf anchorId, .text (" " ++ escapeXml txt)]]

/-- The found-check of ensureAnchorInBodyXml: some anchor macro anywhere in
the fragment has a direct ac:parameter[ac:name=""] child whose trimmed text
equals the id (the child combinator selector of the source). -/
def hasDirectAnchor (body : List XNode) (anchorId : String) : Bool :=
  (forestAll body).any fun n =>
    isAnchorEl n &&
      (childrenOf n).any fun c => isEmptyParam c && trimStr (textOfN c) = anchorId

/-- Embedding of ensureAnchorInBodyXml: keep the body untouched when the
anchor is already present; otherwise prepend the marker (plus a space) into
the first ac:task-body and return only that element; if the fragment holds
no ac:task-body at all, wrap everything in a fresh one. -/
def ensureAnchorInBodyXml (body : List XNode) (anchorId : String) : List XNode :=
  if hasDirectAnchor body anchorId then body
  else
    match firstEl isTaskBodyEl (forestAll body) with
    | some (.elem t a c) =>
        [.elem t a (XForest.ofList (anchorNodeOf anchorId :: .text " " :: c.toList))]
    | some (.text _) =>
        [xel "ac:task-body" [] (anchorNodeOf anchorId :: .text " " :: body)]
    | none =>
        [xel "ac:task-body" [] (anchorNodeOf anchorId :: .text " " :: body)]

/-- One rendered task before templating. -/
structure RTask where
  taskId : String
  status : String
  body : List XNode

/-- The ac:task template chunk of buildPanelInnerXml, with its literal
newline/indent text nodes. -/
def taskNode (r : RTask) : XNode :=
  xel "ac:task" []
    ([.text "\n  ", xel "ac:task-id" [] [.text r.taskId], .text "\n  ",
      xel "ac:task-status" [] [.text r.status], .text "\n  "] ++
      r.body ++ [.text "\n"])

/-- The per-item merge step of buildPanelInnerXml: status from the prior
entry only, task id reused unless falsy, body carried (with anchor ensured)
unless the prior body serialized to the empty string. -/
def renderItem (m : List (String × ExistingTask)) (it : ChecklistItem)
    (ids : List String) (now : Nat) : RTask × List String :=
  let prev := mapGet m it.id
  let status :=
    match prev with
    | some e => if e.status = "complete" then "complete" else "incomplete"
    | none => "incomplete"
  let alloc :=
    match prev with
    | some e =>
        match e.taskId with
        | some t => if t = "" then allocateTaskId ids now else (t, ids)
        | none => allocateTaskId ids now
    | none => allocateTaskId ids now
  let body :=
    match prev with
    | some e =>
        match e.body with
        | [] => [buildNewTaskBodyXml it.id it.text]
        | b :: bs => ensureAnchorInBodyXml (b :: bs) it.id
    | none => [buildNewTaskBodyXml it.id it.text]
  (⟨alloc.1, status, body⟩, alloc.2)

/-- The item loop of one section. -/
def renderItems (m : List (String × ExistingTask)) (now : Nat) :
    List ChecklistItem → List String → List RTask × List String
  | [], ids => ([], ids)
  | it :: its, ids =>
      let r := renderItem m it ids now
      let rest := renderItems m now its r.2
      (r.1 :: rest.1, rest.2)

/-- The ac:task-list chunk: tasks joined with the newline separators the
string templates produce. -/
def taskListNode (rs : List RTask) : XNode :=
  xel "ac:task-list" [] (.text "\n" :: rs.flatMap fun r => [taskNode r, .text "\n"])

def h2Node (s : String) : XNode := xel "h2" [] [.text (escapeXml s)]

def h3Node (s : String) : XNode := xel "h3" [] [.text (escapeXml s)]

/-- The section loop of buildPanelInnerXml. -/
def renderSections (m : List (String × ExistingTask)) (now : Nat) :
    List ChecklistSection → List String → List XNode × List String
  | [], ids => ([], ids)
  | s :: ss, ids =>
      let rs := renderItems m now s.items ids
      let rest := renderSections m now ss rs.2
      ((if s.heading = "" then [] else [h3Node s.heading]) ++
        taskListNode rs.1 :: rest.1, rest.2)

/-- The removed-items loop: prior status/task-id/body carried, anchor
guaranteed (the source indexes the map with a non-null assertion; keys come
from the map, so the none branch is unreachable and skips). -/
def renderRemoved (m : List (String × ExistingTask)) (now : Nat) :
    List String → List String → List RTask × List String
  | [], ids => ([], ids)
  | k :: ks, ids =>
      match mapGet m k with
      | none => renderRemoved m now ks ids
      | some e =>
          let alloc :=
            match e.taskId with
            | some t => if t = "" then allocateTaskId ids now else (t, ids)
            | none => allocateTaskId ids now
          let body := ensureAnchorInBodyXml e.body k
          let status := if e.status = "complete" then "complete" else "incomplete"
          let rest := renderRemoved m now ks alloc.2
          (⟨alloc.1, status, body⟩ :: rest.1, rest.2)

def removedHeadingNode : XNode :=
  xel "h3" [] [.text "Removed items (kept for reference)"]

/-- Embedding of buildPanelInnerXml: title heading, sections, optional
removed-items appendix; the chunks are joined with newline text nodes
(the chunks.join of the source). -/
def buildPanelInner (spec : ChecklistSpec) (m : List (String × ExistingTask))
    (ids : List String) (incl : Bool) (now : Nat) : List XNode × List String :=
  let secs := renderSections m now spec.sections ids
  let top := (if spec.title = "" then [] else [h2Node spec.title]) ++ secs.1
  if incl then
    let nowIds := (spec.sections.flatMap fun s => s.items).map fun it => it.id
    let removedKeys := (m.map Prod.fst).filter fun k => !(nowIds.contains k)
    match removedKeys with
    | [] => (List.intersperse (.text "\n") top, secs.2)
    | k :: ks =>
        let rem := renderRemoved m now (k :: ks) secs.2
        (List.intersperse (.text "\n")
          (top ++ [removedHeadingNode, taskListNode rem.1]), rem.2)
  else (List.intersperse (.text "\n") top, secs.2)

mutual
/-- Replace the children of the first ac:rich-text-body in a forest with the
new inner content (find(..).first().html(inner) inside the target panel);
true in the result means a replacement happened. -/
def repRtbN (inner : List XNode) : XNode → XNode × Bool
  | .text s => (.text s, false)
  | .elem t a c =>
      if t = "ac:rich-text-body" then (.elem t a (XForest.ofList inner), true)
      else
        match repRtbF inner c with
        | (c', true) => (.elem t a c', true)
        | (_, false) => (.elem t a c, false)
def repRtbF (inner : List XNode) : XForest → XForest × Bool
  | .nil => (.nil, false)
  | .cons n t =>
      match repRtbN inner n with
      | (n', true) => (.cons n' t, true)
      | (_, false) =>
          match repRtbF inner t with
          | (t', true) => (.cons n t', true)
          | (_, false) => (.cons n t, false)
end

/-- Replace the first rich-text-body among the DESCENDANTS of a panel node
(find searches descendants only); without one, the panel stays untouched. -/
def replaceFirstRtb (p : XNode) (inner : List XNode) : XNode :=
  match p with
  | .text s => .text s
  | .elem t a c =>
      match repRtbF inner c with
      | (c', true) => .elem t a c'
      | (_, false) => .elem t a c

mutual
/-- Pre-order search for the first panel macro whose title matches; on a hit
its first rich-text-body is refilled with the new inner content. -/
def spN (title : String) (inner : List XNode) : XNode → XNode × Bool
  | .text s => (.text s, false)
  | .elem t a c =>
      if isPanelEl (.elem t a c) && panelTitleText (.elem t a c) = title then
        (replaceFirstRtb (.elem t a c) inner, true)
      else
        match spF title inner c with
        | (c', true) => (.elem t a c', true)
        | (_, false) => (.elem t a c, false)
def spF (title : String) (inner : List XNode) : XForest → XForest × Bool
  | .nil => (.nil, false)
  | .cons n t =>
      match spN title inner n with
      | (n', true) => (.cons n' t, true)
      | (_, false) =>
          match spF title inner t with
          | (t', true) => (.cons n t', true)
          | (_, false) => (.cons n t, false)
end

/-- The same search over the top-level node list of the document. -/
def spL (title : String) (inner : List XNode) : List XNode → List XNode × Bool
  | [] => ([], false)
  | n :: ns =>
      match spN title inner n with
      | (n', true) => (n' :: ns, true)
      | (_, false) =>
          match spL title inner ns with
          | (ns', true) => (n :: ns', true)
          | (_, false) => (n :: ns, false)

/-- The brand-new panel container appended when no managed panel exists yet,
with the literal whitespace of the source template. -/
def panelNodeNew (title : String) (inner : List XNode) : XNode :=
  xel "ac:structured-macro" [("ac:name", "panel")]
    ([.text "\n  ", xel "ac:parameter" [("ac:name", "title")] [.text (escapeXml title)],
      .text "\n  ",
      xel "ac:rich-text-body" [] (.text "\n" :: inner ++ [.text "\n  "]),
      .text "\n"])

/-- Embedding of setManagedPanel: replace the inner content of the first
matching panel, or append a new panel at the end of the document (the
storageXml falsy check guards the separating newline). -/
def setManagedPanel (doc : List XNode) (title : String) (inner : List XNode) :
    List XNode :=
  match spL title inner doc with
  | (doc', true) => doc'
  | (_, false) =>
      (if xmlOfF doc = "" then [] else doc ++ [.text "\n"]) ++
        [panelNodeNew title inner, .text "\n"]

/-- Result of one pure sync pass: the stored document afterwards (unchanged
when the comparator reports a no-op) and the updated flag syncById returns. -/
structure SyncOut where
  stored : List XNode
  updated : Bool

/-- The pure core of syncById on one fetched document: read the existing
tasks scoped to the panel, collect all task ids on the page, merge and
rebuild the panel inner content, splice it in, and gate on the normalized
comparison.  Date.now() is passed in as the clock parameter. -/
def syncStep (spec : ChecklistSpec) (doc : List XNode) (incl : Bool) (now : Nat) :
    SyncOut :=
  let m := readExistingTasks doc (panelTitleOf spec)
  let ids := collectAllTaskIdsOnPage doc
  let inner := buildPanelInner spec m ids incl now
  let newDoc := setManagedPanel doc (panelTitleOf spec) inner.1
  if normalizeXml (xmlOfF doc) = normalizeXml (xmlOfF newDoc) then ⟨doc, false⟩
  else ⟨newDoc, true⟩

/-- Parser readback of the status token written into a rendered task. -/
def taskStatusRead (t : XNode) : String :=
  trimStr (textOfOpt (firstEl isTaskStatusEl (strictDesc t)))

/-- Parser readback of the structural identifier written into a rendered task. -/
def taskIdRead (t : XNode) : String :=
  trimStr (textOfOpt (firstEl isTaskIdEl (strictDesc t)))

/-- The trimmed first-parameter values of the anchor macros inside a task
body, in document order (the candidates the indexing loop folds over). -/
def anchorValsOf (t : XNode) : List String :=
  (match firstEl isTaskBodyEl (strictDesc t) with
    | some b => (strictDesc b).filter isAnchorEl
    | none => []).map
    fun a => trimStr (textOfOpt (firstEl isEmptyParam (strictDesc a)))

/-- Strings unchanged by XML escaping and by trimming, and nonempty: the
identifiers that survive the write/read round trip verbatim. -/
def cleanStr (s : String) : Prop :=
  escapeXml s = s ∧ trimStr s = s ∧ s ≠ ""

/-- No panel macro with the given title anywhere in the document. -/
def NoMatchingPanel (doc : List XNode) (title : String) : Prop :=
  ∀ n ∈ forestAll doc, ¬(isPanelEl n = true ∧ panelTitleText n = title)

/-- The reserved-identifier list grew only by fresh pairwise-distinct ids. -/
def FreshExtends (ids out : List String) : Prop :=
  ∃ fresh, out = ids ++ fresh ∧ fresh.Nodup ∧ ∀ x ∈ fresh, x ∉ ids

/-- Shape of a task rendered for an item absent from the index. -/
def FreshRendered (it : ChecklistItem) (r : RTask) : Prop :=
  r.status = "incomplete" ∧ r.body = [buildNewTaskBodyXml it.id it.text] ∧
    digitStr r.taskId

/-- The index entry that re-parsing a freshly rendered task produces. -/
def pairOf (p : ChecklistItem × RTask) : String × ExistingTask :=
  (p.1.id, ⟨"incomplete", some p.2.taskId, p.2.body⟩)

/-- The top-level chunk list the section loop emits, given each section's
rendered tasks. -/
def sectionsChunks : List ChecklistSection → List (List RTask) → List XNode
  | [], _ => []
  | s :: ss, rs :: rss =>
      (if s.heading = "" then [] else [h3Node s.heading]) ++
        taskListNode rs :: sectionsChunks ss rss
  | _ :: _, [] => []

/-- No ac:task element anywhere in a fragment. -/
def NoTasksIn (ns : List XNode) : Prop :=
  ∀ n ∈ forestAll ns, isTaskEl n = false

/-- Count of tag-opening characters, preserved by whitespace normalization
(used to show that appending the new panel is never reported as a no-op). -/
def cntLt (s : String) : Nat := s.data.count '<'

/-- Outcome of one PUT against the store: success, or an error whose message
either matches the version-conflict pattern (HTTP 409) or not. -/
inductive PutRes where
  | ok
  | err (conflict : Bool) (msg : String)

/-- Embedding of putPageWithRetry: one PUT per attempt with version+1 and the
already-computed markup; on a conflict with retries left, re-fetch the latest
version number (none when the response lacks one, falling back to the stale
version) and recur; otherwise surface the error.  The attempt transcript
records the markup and the version sent each time; puts and fetches give the
store's responses per attempt index k. -/
def putPageWithRetry (storage : String) (version : Nat) (retries : Nat)
    (puts : Nat → PutRes) (fetches : Nat → Option Nat) (k : Nat) :
    List (String × Nat) × Except String Unit :=
  match puts k, retries with
  | .ok, _ => ([(storage, version + 1)], .ok ())
  | .err true _, r + 1 =>
      let rest :=
        putPageWithRetry storage ((fetches k).getD version) r puts fetches (k + 1)
      ((storage, version + 1) :: rest.1, rest.2)
  | .err true msg, 0 => ([(storage, version + 1)], .error msg)
  | .err false msg, _ => ([(storage, version + 1)], .error msg)

/-- Selector for rich-text-body elements. -/
def isRtbEl (n : XNode) : Bool := isElemNamed "ac:rich-text-body" n

/-- The shape of the managed panel after a replace-path sync: the same
container, but with the rich-text-body holding exactly the inner content. -/
def panelNodeReplaced (title : String) (inner : List XNode) : XNode :=
  xel "ac:structured-macro" [("ac:name", "panel")]
    ([.text "\n  ", xel "ac:parameter" [("ac:name", "title")] [.text (escapeXml title)],
      .text "\n  ", xel "ac:rich-text-body" [] inner, .text "\n"])

/-- The index entry of an item whose task was rendered on the previous sync,
as the next render pass consumes it. -/
def CarriedRel (m : List (String × ExistingTask)) (it : ChecklistItem)
    (r : RTask) : Prop :=
  mapGet m it.id = some ⟨"incomplete", some r.taskId, r.body⟩ ∧ r.taskId ≠ "" ∧
    r.status = "incomplete" ∧ r.body ≠ [] ∧ hasDirectAnchor r.body it.id = true

theorem natDigitsGo_fuel :
    ∀ (f₁ : Nat) (n : Nat), n < f₁ → ∀ f₂, n < f₂ → natDigitsGo f₁ n = natDigitsGo f₂ n := by
  intro f₁
  induction f₁ with
  | zero => intro n h; omega
  | succ f ih =>
    intro n hn f₂ hn₂
    cases f₂ with
    | zero => omega
    | succ g =>
      by_cases h10 : n < 10
      · simp [natDigitsGo, h10]
      · have hd : n / 10 < f := by
          have := Nat.div_lt_self (show 0 < n by omega) (show 1 < 10 by omega)
          omega
        have hd₂ : n / 10 < g := by
          have := Nat.div_lt_self (show 0 < n by omega) (show 1 < 10 by omega)
          omega
        simp [natDigitsGo, h10, ih (n / 10) hd g hd₂]

theorem natDigits_eq (n : Nat) :
    natDigits n =
      if n < 10 then [digitChar n] else natDigits (n / 10) ++ [digitChar (n % 10)] := by
  by_cases h10 : n < 10
  · simp [natDigits, natDigitsGo, h10]
  · have hd : n / 10 < n := Nat.div_lt_self (by omega) (by omega)
    have h1 : natDigits n = natDigitsGo n (n / 10) ++ [digitChar (n % 10)] := by
      show natDigitsGo (n + 1) n = _
      simp [natDigitsGo, h10]
    rw [h1, natDigitsGo_fuel n (n / 10) hd (n / 10 + 1) (Nat.lt_succ_self _), if_neg h10]
    rfl

theorem natDigits_ne_nil (n : Nat) : natDigits n ≠ [] := by
  rw [natDigits_eq]
  split
  · simp
  · simp

theorem digitChar_code {d : Nat} (h : d < 10) :
    48 ≤ (digitChar d).toNat ∧ (digitChar d).toNat ≤ 57 := by
  interval_cases d <;> decide

theorem natDigits_all_digit (n : Nat) :
    ∀ c ∈ natDigits n, 48 ≤ c.toNat ∧ c.toNat ≤ 57 := by
  induction n using Nat.strong_induction_on with
  | _ n ih =>
    rw [natDigits_eq]
    split
    · next h => intro c hc; simp at hc; subst hc; exact digitChar_code h
    · next h =>
      intro c hc
      simp only [List.mem_append, List.mem_singleton] at hc
      rcases hc with hc | hc
      · exact ih (n / 10) (Nat.div_lt_self (by omega) (by omega)) c hc
      · subst hc; exact digitChar_code (Nat.mod_lt _ (by omega))

theorem digitsVal_append (l₁ l₂ : List Char) :
    digitsVal (l₁ ++ l₂) = l₂.foldl (fun a c => 10 * a + (c.toNat - 48)) (digitsVal l₁) := by
  simp [digitsVal, List.foldl_append]

theorem digitChar_toNat {d : Nat} (h : d < 10) : (digitChar d).toNat = 48 + d := by
  simp [digitChar, Char.toNat, Char.ofNat]
  interval_cases d <;> decide

theorem digitsVal_natDigits (n : Nat) : digitsVal (natDigits n) = n := by
  induction n using Nat.strong_induction_on with
  | _ n ih =>
    rw [natDigits_eq]
    split
    · next h =>
      simp [digitsVal, digitChar_toNat h]
    · next h =>
      rw [digitsVal_append, ih (n / 10) (Nat.div_lt_self (by omega) (by omega))]
      have hm : (digitChar (n % 10)).toNat = 48 + n % 10 :=
        digitChar_toNat (Nat.mod_lt _ (by omega))
      simp [List.foldl, hm]
      omega

theorem natToString_injective : Function.Injective natToString := by
  intro a b h
  have : natDigits a = natDigits b := congrArg String.data h
  have := congrArg digitsVal this
  rwa [digitsVal_natDigits, digitsVal_natDigits] at this

theorem natToString_digitStr (n : Nat) : digitStr (natToString n) := by
  constructor
  · intro h
    exact natDigits_ne_nil n (congrArg String.data h)
  · exact natDigits_all_digit n

theorem wsChar_of_digit {c : Char} (h : 48 ≤ c.toNat ∧ c.toNat ≤ 57) :
    wsChar c = false := by
  by_contra hw
  simp only [Bool.not_eq_false, wsChar, Bool.or_eq_true, decide_eq_true_eq] at hw
  rcases hw with ((((e | e) | e) | e) | e) | e <;> subst e <;>
    exact absurd h (by decide)

theorem dropWhile_ws_eq_self {l : List Char} (h : ∀ c ∈ l, wsChar c = false) :
    l.dropWhile wsChar = l := by
  cases l with
  | nil => rfl
  | cons c t => simp [List.dropWhile_cons, h c (by simp)]

theorem trimList_of_no_ws {l : List Char} (h : ∀ c ∈ l, wsChar c = false) :
    trimList l = l := by
  unfold trimList
  rw [dropWhile_ws_eq_self h]
  rw [dropWhile_ws_eq_self (fun c hc => h c (List.mem_reverse.mp hc))]
  exact List.reverse_reverse l

theorem trimStr_of_digitStr {s : String} (h : digitStr s) : trimStr s = s := by
  have : trimList s.data = s.data :=
    trimList_of_no_ws (fun c hc => wsChar_of_digit (h.2 c hc))
  cases s
  simp [trimStr, this]

theorem catStrs_append (a b : List String) :
    catStrs (a ++ b) = catStrs a ++ catStrs b := by
  induction a with
  | nil => simp [catStrs]
  | cons s t ih => simp [catStrs, ih, String.append_assoc]

theorem toList_ofList (l : List XNode) : (XForest.ofList l).toList = l := by
  induction l with
  | nil => rfl
  | cons n t ih => simp [XForest.ofList, XForest.toList, ih]

theorem fAll_toList : (f : XForest) → fAll f = forestAll f.toList
  | .nil => by simp [fAll, XForest.toList, forestAll]
  | .cons n t => by
      rw [fAll, fAll_toList t]
      simp [XForest.toList, forestAll]

theorem forestAll_append (a b : List XNode) :
    forestAll (a ++ b) = forestAll a ++ forestAll b := by
  simp [forestAll]

theorem forestAll_cons (n : XNode) (ns : List XNode) :
    forestAll (n :: ns) = nodeAll n ++ forestAll ns := by
  simp [forestAll]

theorem nodeAll_text (s : String) : nodeAll (.text s) = [.text s] := rfl

theorem nodeAll_xel (t : String) (a : List (String × String)) (c : List XNode) :
    nodeAll (xel t a c) = xel t a c :: forestAll c := by
  simp [xel, nodeAll, fAll_toList, toList_ofList]

theorem strictDesc_xel (t : String) (a : List (String × String)) (c : List XNode) :
    strictDesc (xel t a c) = forestAll c := by
  simp [strictDesc, childrenOf, xel, toList_ofList]

theorem nodeAll_eq_cons_strictDesc (n : XNode) :
    nodeAll n = n :: strictDesc n := by
  cases n with
  | text s => rfl
  | elem t a c => simp [nodeAll, strictDesc, childrenOf, fAll_toList]

theorem xmlOfFo_toList : (f : XForest) → xmlOfFo f = xmlOfF f.toList
  | .nil => by simp [xmlOfFo, XForest.toList, xmlOfF, catStrs]
  | .cons n t => by
      rw [xmlOfFo, xmlOfFo_toList t]
      simp [XForest.toList, xmlOfF, catStrs]

theorem xmlOfF_append (a b : List XNode) :
    xmlOfF (a ++ b) = xmlOfF a ++ xmlOfF b := by
  simp [xmlOfF, catStrs_append]

theorem xmlOfF_cons (n : XNode) (ns : List XNode) :
    xmlOfF (n :: ns) = xmlOfN n ++ xmlOfF ns := by
  simp [xmlOfF, catStrs]

theorem textOfF_append (a b : List XNode) :
    textOfF (a ++ b) = textOfF a ++ textOfF b := by
  simp [textOfF, forestAll_append, List.filterMap_append, catStrs_append]

theorem allocGo_not_mem {s : List String} :
    ∀ (fuel n : Nat), (∃ i, i < fuel ∧ natToString (n + i) ∉ s) →
      natToString (allocGo fuel s n) ∉ s := by
  intro fuel
  induction fuel with
  | zero => intro n ⟨i, hi, _⟩; omega
  | succ f ih =>
    intro n ⟨i, hi, hfree⟩
    by_cases hmem : natToString n ∈ s
    · have hi0 : i ≠ 0 := by
        intro h; subst h; simp at hfree; exact hfree hmem
      have : allocGo (f + 1) s n = allocGo f s (n + 1) := by
        simp [allocGo, hmem]
      rw [this]
      exact ih (n + 1) ⟨i - 1, by omega, by
        have : n + 1 + (i - 1) = n + i := by omega
        rwa [this]⟩
    · have : allocGo (f + 1) s n = n := by simp [allocGo, hmem]
      rwa [this]

theorem exists_free_candidate (s : List String) (n : Nat) :
    ∃ i, i < s.length + 1 ∧ natToString (n + i) ∉ s := by
  by_contra hall
  push_neg at hall
  set L := (List.range (s.length + 1)).map fun i => natToString (n + i) with hL
  have hnodup : L.Nodup := by
    refine List.Nodup.map ?_ (List.nodup_range _)
    intro a b hab
    have := natToString_injective hab
    omega
  have hsub : ∀ x ∈ L, x ∈ s := by
    intro x hx
    rw [hL] at hx
    simp only [List.mem_map, List.mem_range] at hx
    obtain ⟨i, hi, rfl⟩ := hx
    exact hall i hi
  have hcard1 : L.toFinset.card = s.length + 1 := by
    rw [List.toFinset_card_of_nodup hnodup, hL]
    simp
  have hcard2 : L.toFinset ⊆ s.toFinset := by
    intro x hx
    rw [List.mem_toFinset] at hx ⊢
    exact hsub x hx
  have := Finset.card_le_card hcard2
  have := List.toFinset_card_le s
  omega

/-- The allocator always returns an identifier that was free at call time,
and reserves it immediately. -/
theorem allocateTaskId_spec (ids : List String) (now : Nat) :
    (allocateTaskId ids now).1 ∉ ids ∧
      (allocateTaskId ids now).2 = ids ++ [(allocateTaskId ids now).1] := by
  refine ⟨?_, rfl⟩
  exact allocGo_not_mem (ids.length + 1) now (exists_free_candidate ids now)

theorem allocateTaskId_digitStr (ids : List String) (now : Nat) :
    digitStr (allocateTaskId ids now).1 :=
  natToString_digitStr _

theorem forestAll_nil : forestAll [] = [] := rfl

theorem textOfN_text (s : String) : textOfN (.text s) = s := by
  simp [textOfN, textOfF, forestAll, nodeAll, catStrs]

theorem textOfN_xel_text (t : String) (a : List (String × String)) (s : String) :
    textOfN (xel t a [.text s]) = s := by
  simp [textOfN, textOfF, forestAll_cons, nodeAll_xel, nodeAll_text, forestAll_nil,
    catStrs]

theorem strictDesc_taskNode (r : RTask) :
    strictDesc (taskNode r) =
      [.text "\n  ", xel "ac:task-id" [] [.text r.taskId], .text r.taskId,
        .text "\n  ", xel "ac:task-status" [] [.text r.status], .text r.status,
        .text "\n  "] ++ forestAll r.body ++ [.text "\n"] := by
  simp [taskNode, strictDesc_xel, forestAll_cons, forestAll_append, nodeAll_xel,
    nodeAll_text, forestAll_nil, List.append_assoc]

theorem isElemNamed_xel (tag t : String) (a : List (String × String)) (c : List XNode) :
    isElemNamed tag (xel t a c) = decide (t = tag) := by
  simp [isElemNamed, xel]

theorem isElemNamed_text (tag s : String) : isElemNamed tag (.text s) = false := rfl

theorem attrOf_xel (t : String) (a : List (String × String)) (c : List XNode)
    (key : String) : attrOf (xel t a c) key = a.lookup key := by
  simp [attrOf, xel]

theorem taskStatusRead_taskNode (r : RTask) :
    taskStatusRead (taskNode r) = trimStr r.status := by
  simp [taskStatusRead, strictDesc_taskNode, firstEl, List.find?_cons, isTaskStatusEl,
    isElemNamed_xel, isElemNamed_text, textOfOpt, textOfN_xel_text]

theorem taskIdRead_taskNode (r : RTask) :
    taskIdRead (taskNode r) = trimStr r.taskId := by
  simp [taskIdRead, strictDesc_taskNode, firstEl, List.find?_cons, isTaskIdEl,
    isElemNamed_xel, isElemNamed_text, textOfOpt, textOfN_xel_text]

theorem childrenOf_xel (t : String) (a : List (String × String)) (c : List XNode) :
    childrenOf (xel t a c) = c := by
  simp [childrenOf, xel, toList_ofList]

theorem renderItem_status (m : List (String × ExistingTask)) (it : ChecklistItem)
    (ids : List String) (now : Nat) :
    (renderItem m it ids now).1.status =
      match mapGet m it.id with
      | some e => if e.status = "complete" then "complete" else "incomplete"
      | none => "incomplete" := rfl

theorem trimStr_complete : trimStr "complete" = "complete" := by decide

theorem trimStr_incomplete : trimStr "incomplete" = "incomplete" := by decide

/-- Claim C2: the rendered status is complete exactly when the index carries a
complete entry for the item's external identifier; the specification item
itself (its display text, position, clock, reserved ids) cannot influence it. -/
theorem claim_c2 (m : List (String × ExistingTask)) (it : ChecklistItem)
    (ids : List String) (now : Nat) :
    (taskStatusRead (taskNode (renderItem m it ids now).1) = "complete" ↔
      ∃ e, mapGet m it.id = some e ∧ e.status = "complete") ∧
    (∀ (it2 : ChecklistItem) (ids2 : List String) (now2 : Nat), it2.id = it.id →
      taskStatusRead (taskNode (renderItem m it2 ids2 now2).1) =
        taskStatusRead (taskNode (renderItem m it ids now).1)) := by
  have key : ∀ (it' : ChecklistItem) (ids' : List String) (now' : Nat), it'.id = it.id →
      taskStatusRead (taskNode (renderItem m it' ids' now').1) =
        match mapGet m it.id with
        | some e => if e.status = "complete" then "complete" else "incomplete"
        | none => "incomplete" := by
    intro it' ids' now' hid
    rw [taskStatusRead_taskNode, renderItem_status, hid]
    cases h : mapGet m it.id with
    | none => exact trimStr_incomplete
    | some e =>
      by_cases hc : e.status = "complete"
      · simp [hc, trimStr_complete]
      · simp [hc, trimStr_incomplete]
  constructor
  · rw [key it ids now rfl]
    cases h : mapGet m it.id with
    | none =>
      simp only []
      constructor
      · intro hfalse; exact absurd hfalse (by decide)
      · rintro ⟨e, he, _⟩; exact absurd he (by simp)
    | some e =>
      by_cases hc : e.status = "complete"
      · simp [hc]
      · simp only [if_neg hc]
        constructor
        · intro hfalse; exact absurd hfalse (by decide)
        · rintro ⟨e', he', hc'⟩
          rw [Option.some_inj] at he'
          subst he'
          exact absurd hc' hc
  · intro it2 ids2 now2 hid
    rw [key it2 ids2 now2 hid, key it ids now rfl]

/-- Witness for claim C2 at a concrete input. -/
theorem claim_c2_witness :
    taskStatusRead (taskNode (renderItem [] ⟨"a", "u"⟩ [] 5).1) =
      taskStatusRead (taskNode (renderItem [] ⟨"a", "t"⟩ [] 0).1) :=
  (claim_c2 [] ⟨"a", "t"⟩ [] 0).2 ⟨"a", "u"⟩ [] 5 rfl

theorem hasDirectAnchor_nil (id : String) : hasDirectAnchor [] id = false := rfl

/-- Claim C3: when the index holds an entry for the item's identifier whose
carried body already contains the anchor, the rendered body is that body,
verbatim, whatever display text the new specification carries; only items
absent from the index get a freshly built body of marker plus escaped text. -/
theorem claim_c3 (m : List (String × ExistingTask)) (it : ChecklistItem)
    (ids : List String) (now : Nat) :
    (∀ e, mapGet m it.id = some e → hasDirectAnchor e.body it.id = true →
      (renderItem m it ids now).1.body = e.body ∧
      ∀ txt2, (renderItem m ⟨it.id, txt2⟩ ids now).1.body = e.body) ∧
    (mapGet m it.id = none →
      (renderItem m it ids now).1.body = [buildNewTaskBodyXml it.id it.text]) := by
  constructor
  · intro e he hfound
    have hbody : ∀ txt2, (renderItem m ⟨it.id, txt2⟩ ids now).1.body = e.body := by
      intro txt2
      show (match mapGet m it.id with
        | some e =>
            match e.body with
            | [] => [buildNewTaskBodyXml it.id txt2]
            | b :: bs => ensureAnchorInBodyXml (b :: bs) it.id
        | none => [buildNewTaskBodyXml it.id txt2]) = e.body
      rw [he]
      cases hb : e.body with
      | nil => rw [hb] at hfound; exact absurd hfound (by simp [hasDirectAnchor_nil])
      | cons b bs =>
        rw [hb] at hfound
        simp [hb, ensureAnchorInBodyXml, hfound]
    refine ⟨?_, hbody⟩
    have := hbody it.text
    simpa using this
  · intro hnone
    show (match mapGet m it.id with
      | some e =>
          match e.body with
          | [] => [buildNewTaskBodyXml it.id it.text]
          | b :: bs => ensureAnchorInBodyXml (b :: bs) it.id
      | none => [buildNewTaskBodyXml it.id it.text]) = _
    rw [hnone]

/-- Witness for claim C3 at a concrete input. -/
theorem claim_c3_witness :
    (renderItem [("k", ⟨"complete", some "7",
        [buildNewTaskBodyXml "k" "orig"]⟩)] ⟨"k", "revised"⟩ [] 0).1.body =
      [buildNewTaskBodyXml "k" "orig"] :=
  ((claim_c3 [("k", ⟨"complete", some "7", [buildNewTaskBodyXml "k" "orig"]⟩)]
      ⟨"k", "revised"⟩ [] 0).1 ⟨"complete", some "7", [buildNewTaskBodyXml "k" "orig"]⟩
    rfl (by rfl)).1

theorem renderItem_taskId_of_carried (m : List (String × ExistingTask))
    (it : ChecklistItem) (ids : List String) (now : Nat) (e : ExistingTask)
    (t : String) (he : mapGet m it.id = some e) (ht : e.taskId = some t)
    (hne : t ≠ "") : (renderItem m it ids now).1.taskId = t := by
  show (match mapGet m it.id with
    | some e =>
        match e.taskId with
        | some t => if t = "" then allocateTaskId ids now else (t, ids)
        | none => allocateTaskId ids now
    | none => allocateTaskId ids now).1 = t
  rw [he]
  simp [ht, hne]

/-- Claim C4 (amended): matching is by identifier lookup only, so across any
two renders against the same index the status of an item depends only on its
external identifier, and an item whose index entry carries a non-null,
nonempty structural identifier reuses exactly that identifier in both; only
the identifiers of items absent from the index depend on allocation order. -/
theorem claim_c4_amended (m : List (String × ExistingTask))
    (it1 it2 : ChecklistItem) (ids1 ids2 : List String) (now1 now2 : Nat)
    (hid : it1.id = it2.id) :
    ((renderItem m it1 ids1 now1).1.status = (renderItem m it2 ids2 now2).1.status) ∧
    (∀ e t, mapGet m it1.id = some e → e.taskId = some t → t ≠ "" →
      (renderItem m it1 ids1 now1).1.taskId = t ∧
        (renderItem m it2 ids2 now2).1.taskId = t) := by
  constructor
  · rw [renderItem_status, renderItem_status, hid]
  · intro e t he ht hne
    exact ⟨renderItem_taskId_of_carried m it1 ids1 now1 e t he ht hne,
      renderItem_taskId_of_carried m it2 ids2 now2 e t (hid ▸ he) ht hne⟩

/-- Witness for the amended claim C4 at a concrete input. -/
theorem claim_c4_amended_witness :
    (renderItem [("k", ⟨"incomplete", some "9", [buildNewTaskBodyXml "k" "o"]⟩)]
        ⟨"k", "a"⟩ [] 0).1.taskId = "9" ∧
      (renderItem [("k", ⟨"incomplete", some "9", [buildNewTaskBodyXml "k" "o"]⟩)]
        ⟨"k", "b"⟩ ["3"] 7).1.taskId = "9" :=
  ((claim_c4_amended [("k", ⟨"incomplete", some "9", [buildNewTaskBodyXml "k" "o"]⟩)]
      ⟨"k", "a"⟩ ⟨"k", "b"⟩ [] ["3"] 0 7 rfl).2
    ⟨"incomplete", some "9", [buildNewTaskBodyXml "k" "o"]⟩ "9" rfl rfl (by decide))

/-- Counterexample to claim C4 as frozen: two specifications with the same
item set in different orders, merged against the same (empty) index and
identifier set, give item "a" the structural identifier "0" in one render and
"1" in the other — fresh allocations follow allocation order, not identity. -/
theorem claim_c4_counterexample :
    (((forestAll (buildPanelInner ⟨"", "", [⟨"", [⟨"a", "ta"⟩, ⟨"b", "tb"⟩]⟩]⟩
        [] [] false 0).1).filter isTaskEl).map fun t => (taskAnchorOf t, taskIdRead t)) =
      [(some "a", "0"), (some "b", "1")] ∧
    (((forestAll (buildPanelInner ⟨"", "", [⟨"", [⟨"b", "tb"⟩, ⟨"a", "ta"⟩]⟩]⟩
        [] [] false 0).1).filter isTaskEl).map fun t => (taskAnchorOf t, taskIdRead t)) =
      [(some "b", "0"), (some "a", "1")] ∧
    ("0" : String) ≠ "1" := by
  refine ⟨?_, ?_, by decide⟩ <;> rfl

theorem freshExtends_refl (ids : List String) : FreshExtends ids ids :=
  ⟨[], by simp, List.nodup_nil, by simp⟩

theorem freshExtends_trans {a b c : List String} (h1 : FreshExtends a b)
    (h2 : FreshExtends b c) : FreshExtends a c := by
  obtain ⟨f1, rfl, n1, hf1⟩ := h1
  obtain ⟨f2, rfl, n2, hf2⟩ := h2
  refine ⟨f1 ++ f2, by simp, ?_, ?_⟩
  · refine List.Nodup.append n1 n2 ?_
    intro x hx1 hx2
    exact hf2 x hx2 (by simp [hx1])
  · intro x hx
    rcases List.mem_append.mp hx with hx | hx
    · exact hf1 x hx
    · intro hxa
      exact hf2 x hx (by simp [hxa])

theorem freshExtends_alloc (ids : List String) (now : Nat) :
    FreshExtends ids (allocateTaskId ids now).2 := by
  obtain ⟨hfree, heq⟩ := allocateTaskId_spec ids now
  exact ⟨[(allocateTaskId ids now).1], heq, List.nodup_singleton _, by
    intro x hx
    rw [List.mem_singleton] at hx
    subst hx
    exact hfree⟩

theorem freshExtends_renderItem (m : List (String × ExistingTask))
    (it : ChecklistItem) (ids : List String) (now : Nat) :
    FreshExtends ids (renderItem m it ids now).2 := by
  show FreshExtends ids (match mapGet m it.id with
    | some e =>
        match e.taskId with
        | some t => if t = "" then allocateTaskId ids now else (t, ids)
        | none => allocateTaskId ids now
    | none => allocateTaskId ids now).2
  cases h : mapGet m it.id with
  | none => simp only [h]; exact freshExtends_alloc ids now
  | some e =>
    simp only [h]
    cases ht : e.taskId with
    | none => simp only [ht]; exact freshExtends_alloc ids now
    | some t =>
      simp only [ht]
      by_cases he : t = ""
      · simp only [he, if_pos rfl]
        exact freshExtends_alloc ids now
      · simp only [if_neg he]
        exact freshExtends_refl ids

theorem freshExtends_renderItems (m : List (String × ExistingTask)) (now : Nat) :
    ∀ (items : List ChecklistItem) (ids : List String),
      FreshExtends ids (renderItems m now items ids).2 := by
  intro items
  induction items with
  | nil => intro ids; exact freshExtends_refl ids
  | cons it its ih =>
    intro ids
    exact freshExtends_trans (freshExtends_renderItem m it ids now)
      (ih (renderItem m it ids now).2)

theorem freshExtends_renderSections (m : List (String × ExistingTask)) (now : Nat) :
    ∀ (ss : List ChecklistSection) (ids : List String),
      FreshExtends ids (renderSections m now ss ids).2 := by
  intro ss
  induction ss with
  | nil => intro ids; exact freshExtends_refl ids
  | cons s ss ih =>
    intro ids
    exact freshExtends_trans (freshExtends_renderItems m now s.items ids)
      (ih (renderItems m now s.items ids).2)

theorem freshExtends_renderRemoved (m : List (String × ExistingTask)) (now : Nat) :
    ∀ (ks : List String) (ids : List String),
      FreshExtends ids (renderRemoved m now ks ids).2 := by
  intro ks
  induction ks with
  | nil => intro ids; exact freshExtends_refl ids
  | cons k ks ih =>
    intro ids
    show FreshExtends ids (match mapGet m k with
      | none => renderRemoved m now ks ids
      | some e =>
          let alloc :=
            match e.taskId with
            | some t => if t = "" then allocateTaskId ids now else (t, ids)
            | none => allocateTaskId ids now
          let body := ensureAnchorInBodyXml e.body k
          let status := if e.status = "complete" then "complete" else "incomplete"
          let rest := renderRemoved m now ks alloc.2
          (⟨alloc.1, status, body⟩ :: rest.1, rest.2)).2
    cases h : mapGet m k with
    | none => simp only [h]; exact ih ids
    | some e =>
      simp only [h]
      have halloc : FreshExtends ids (match e.taskId with
          | some t => if t = "" then allocateTaskId ids now else (t, ids)
          | none => allocateTaskId ids now).2 := by
        cases ht : e.taskId with
        | none => simp only [ht]; exact freshExtends_alloc ids now
        | some t =>
          simp only [ht]
          by_cases he : t = ""
          · simp only [he, if_pos rfl]; exact freshExtends_alloc ids now
          · simp only [if_neg he]; exact freshExtends_refl ids
      exact freshExtends_trans halloc (ih _)

theorem freshExtends_buildPanelInner (spec : ChecklistSpec)
    (m : List (String × ExistingTask)) (ids : List String) (incl : Bool) (now : Nat) :
    FreshExtends ids (buildPanelInner spec m ids incl now).2 := by
  unfold buildPanelInner
  cases incl with
  | false =>
    simp only [Bool.false_eq_true, if_false]
    exact freshExtends_renderSections m now spec.sections ids
  | true =>
    simp only [if_true]
    cases hk : (m.map Prod.fst).filter fun k =>
        !(((spec.sections.flatMap fun s => s.items).map fun it => it.id).contains k) with
    | nil => exact freshExtends_renderSections m now spec.sections ids
    | cons k ks =>
      exact freshExtends_trans (freshExtends_renderSections m now spec.sections ids)
        (freshExtends_renderRemoved m now (k :: ks) _)

/-- Claim C5: an allocated identifier is never a member of the reserved set at
the moment it is returned and is reserved immediately; consequently one whole
render pass (removed-items appendix included) only ever appends pairwise
distinct identifiers, all distinct from everything already on the page. -/
theorem claim_c5 (ids : List String) (now : Nat) :
    ((allocateTaskId ids now).1 ∉ ids ∧
      (allocateTaskId ids now).2 = ids ++ [(allocateTaskId ids now).1]) ∧
    ∀ (spec : ChecklistSpec) (m : List (String × ExistingTask)) (incl : Bool),
      FreshExtends ids (buildPanelInner spec m ids incl now).2 :=
  ⟨allocateTaskId_spec ids now,
    fun spec m incl => freshExtends_buildPanelInner spec m ids incl now⟩

/-- Witness for claim C5 at a concrete input. -/
theorem claim_c5_witness :
    (allocateTaskId ["0"] 0).1 ∉ (["0"] : List String) :=
  (claim_c5 ["0"] 0).1.1

theorem anchorFold_eq (ms : List XNode) : ∀ acc : Option String,
    ms.foldl
      (fun acc a =>
        let v := trimStr (textOfOpt (firstEl isEmptyParam (strictDesc a)))
        if v = "" then acc else some v) acc =
      (((ms.map fun a => trimStr (textOfOpt (firstEl isEmptyParam (strictDesc a)))).filter
          fun v => !(v == "")).getLast?).or acc := by
  induction ms with
  | nil => intro acc; simp
  | cons a ms ih =>
    intro acc
    rw [List.foldl_cons, ih]
    simp only [List.map_cons, List.filter_cons]
    by_cases hv : trimStr (textOfOpt (firstEl isEmptyParam (strictDesc a))) = ""
    · simp [hv]
    · have hp : (!(trimStr (textOfOpt (firstEl isEmptyParam (strictDesc a))) == "")) = true := by
        simp [hv]
      rw [hp, if_neg hv]
      simp only [reduceIte]
      cases hfl : (ms.map fun a => trimStr (textOfOpt (firstEl isEmptyParam
          (strictDesc a)))).filter fun v => !(v == "") with
      | nil => simp [Option.or]
      | cons x t =>
        rw [List.getLast?_cons_cons]
        have hs : (x :: t).getLast?.isSome := by
          rw [List.getLast?_isSome]
          simp
        obtain ⟨z, hz⟩ := Option.isSome_iff_exists.mp hs
        rw [hz]
        simp [Option.or]

/-- Claim C8: the identifier a task is indexed under is the last nonempty
anchor value encountered in document order within its body. -/
theorem claim_c8 (t : XNode) :
    taskAnchorOf t = ((anchorValsOf t).filter fun v => !(v == "")).getLast? := by
  unfold taskAnchorOf anchorValsOf
  cases hb : firstEl isTaskBodyEl (strictDesc t) with
  | none =>
    simp [hb]
  | some b =>
    simp only [hb]
    rw [anchorFold_eq]
    cases ((((strictDesc b).filter isAnchorEl).map fun a =>
        trimStr (textOfOpt (firstEl isEmptyParam (strictDesc a)))).filter
        fun v => !(v == "")).getLast? <;> simp [Option.or]

theorem nodeAll_head (x : XNode) (rest : List XNode) : x ∈ forestAll (x :: rest) := by
  rw [forestAll_cons, nodeAll_eq_cons_strictDesc]
  simp

theorem mem_forestAll_xel_child (t : String) (a : List (String × String))
    (c : List XNode) (x : XNode) (hx : x ∈ forestAll c) :
    x ∈ forestAll [xel t a c] := by
  rw [forestAll_cons, nodeAll_xel, forestAll_nil, List.append_nil]
  exact List.mem_cons_of_mem _ hx

theorem anchorNode_pred (id : String) (h1 : escapeXml id = id) (h2 : trimStr id = id) :
    (isAnchorEl (anchorNodeOf id) &&
      (childrenOf (anchorNodeOf id)).any fun c =>
        isEmptyParam c && trimStr (textOfN c) = id) = true := by
  simp [anchorNodeOf, isAnchorEl, isEmptyParam, isElemNamed_xel, attrOf_xel,
    childrenOf_xel, textOfN_xel_text, List.lookup, h1, h2]

theorem hasDirectAnchor_of_mem {body : List XNode} {id : String} (n : XNode)
    (hn : n ∈ forestAll body)
    (hp : (isAnchorEl n &&
      (childrenOf n).any fun c => isEmptyParam c && trimStr (textOfN c) = id) = true) :
    hasDirectAnchor body id = true := by
  unfold hasDirectAnchor
  exact List.any_eq_true.mpr ⟨n, hn, hp⟩

theorem hasDirectAnchor_fresh (id txt : String) (h1 : escapeXml id = id)
    (h2 : trimStr id = id) :
    hasDirectAnchor [buildNewTaskBodyXml id txt] id = true := by
  refine hasDirectAnchor_of_mem (anchorNodeOf id) ?_ (anchorNode_pred id h1 h2)
  refine mem_forestAll_xel_child _ _ _ _ ?_
  rw [forestAll_cons, forestAll_nil, List.append_nil, nodeAll_xel]
  exact List.mem_cons_of_mem _ (nodeAll_head _ _)

theorem hasDirectAnchor_ensure (b : List XNode) (id : String)
    (h1 : escapeXml id = id) (h2 : trimStr id = id) :
    hasDirectAnchor (ensureAnchorInBodyXml b id) id = true := by
  by_cases hf : hasDirectAnchor b id = true
  · simp [ensureAnchorInBodyXml, hf]
  · rw [ensureAnchorInBodyXml, if_neg hf]
    cases hfe : firstEl isTaskBodyEl (forestAll b) with
    | none =>
      refine hasDirectAnchor_of_mem (anchorNodeOf id) ?_ (anchorNode_pred id h1 h2)
      exact mem_forestAll_xel_child _ _ _ _ (nodeAll_head _ _)
    | some n =>
      cases n with
      | text s =>
        refine hasDirectAnchor_of_mem (anchorNodeOf id) ?_ (anchorNode_pred id h1 h2)
        exact mem_forestAll_xel_child _ _ _ _ (nodeAll_head _ _)
      | elem t a c =>
        refine hasDirectAnchor_of_mem (anchorNodeOf id) ?_ (anchorNode_pred id h1 h2)
        rw [forestAll_cons, forestAll_nil, List.append_nil,
          nodeAll_eq_cons_strictDesc]
        refine List.mem_cons_of_mem _ ?_
        show anchorNodeOf id ∈ forestAll (childrenOf _)
        rw [childrenOf, toList_ofList]
        exact nodeAll_head _ _

theorem isAnchorEl_taskBody (a : List (String × String)) (c : List XNode) :
    isAnchorEl (xel "ac:task-body" a c) = false := by
  simp [isAnchorEl, isElemNamed_xel]

theorem hasDirectAnchor_ensure_keeps (a : List (String × String)) (c : List XNode)
    (id k : String) (hk : hasDirectAnchor [xel "ac:task-body" a c] k = true) :
    hasDirectAnchor (ensureAnchorInBodyXml [xel "ac:task-body" a c] id) k = true := by
  by_cases hf : hasDirectAnchor [xel "ac:task-body" a c] id = true
  · simpa [ensureAnchorInBodyXml, hf] using hk
  · rw [ensureAnchorInBodyXml, if_neg hf]
    have hfe : firstEl isTaskBodyEl (forestAll [xel "ac:task-body" a c]) =
        some (xel "ac:task-body" a c) := by
      rw [forestAll_cons, forestAll_nil, List.append_nil, nodeAll_eq_cons_strictDesc]
      exact List.find?_cons_of_pos _ (by simp [isTaskBodyEl, isElemNamed_xel])
    rw [hfe]
    obtain ⟨n, hn, hp⟩ := List.any_eq_true.mp hk
    have hnc : n ∈ forestAll c := by
      rw [forestAll_cons, forestAll_nil, List.append_nil,
        nodeAll_eq_cons_strictDesc] at hn
      rcases List.mem_cons.mp hn with h | h
      · subst h
        rw [isAnchorEl_taskBody] at hp
        simp at hp
      · rwa [strictDesc_xel] at h
    refine hasDirectAnchor_of_mem n ?_ hp
    show n ∈ forestAll [XNode.elem "ac:task-body" a
      (XForest.ofList (anchorNodeOf id :: XNode.text " " :: (XForest.ofList c).toList))]
    rw [toList_ofList]
    have : n ∈ forestAll (anchorNodeOf id :: XNode.text " " :: c) := by
      rw [forestAll_cons, forestAll_cons]
      simp only [List.mem_append]
      right; right; exact hnc
    exact mem_forestAll_xel_child _ _ _ _ this

/-- Claim C6 (amended): for external identifiers unchanged by XML escaping
and trimming, every body the engine emits — freshly built, carried through
ensureAnchorInBodyXml in the sections or in the removed-items appendix —
contains an anchor macro whose parameter value is that identifier; when the
carried body is the usual single task-body element, no anchor already present
is ever removed.  (For other identifiers the stored parameter value is the
XML-escaped form, see the counterexample.) -/
theorem claim_c6_amended (id txt : String) (b : List XNode)
    (a : List (String × String)) (c : List XNode) (k : String)
    (h1 : escapeXml id = id) (h2 : trimStr id = id) :
    hasDirectAnchor [buildNewTaskBodyXml id txt] id = true ∧
    hasDirectAnchor (ensureAnchorInBodyXml b id) id = true ∧
    (hasDirectAnchor [xel "ac:task-body" a c] k = true →
      hasDirectAnchor (ensureAnchorInBodyXml [xel "ac:task-body" a c] id) k = true) ∧
    ∀ (m : List (String × ExistingTask)) (it : ChecklistItem) (ids : List String)
      (now : Nat), it.id = id →
        hasDirectAnchor (renderItem m it ids now).1.body id = true := by
  refine ⟨hasDirectAnchor_fresh id txt h1 h2, hasDirectAnchor_ensure b id h1 h2,
    hasDirectAnchor_ensure_keeps a c id k, ?_⟩
  intro m it ids now hid
  show hasDirectAnchor (match mapGet m it.id with
    | some e =>
        match e.body with
        | [] => [buildNewTaskBodyXml it.id it.text]
        | bb :: bs => ensureAnchorInBodyXml (bb :: bs) it.id
    | none => [buildNewTaskBodyXml it.id it.text]) id = true
  cases hm : mapGet m it.id with
  | none =>
    simp only [hm]
    rw [hid]
    exact hasDirectAnchor_fresh id it.text h1 h2
  | some e =>
    simp only [hm]
    cases hb : e.body with
    | nil =>
      rw [hid]
      exact hasDirectAnchor_fresh id it.text h1 h2
    | cons bb bs =>
      rw [hid]
      exact hasDirectAnchor_ensure (bb :: bs) id h1 h2

/-- Witness for the amended claim C6 at a concrete input. -/
theorem claim_c6_amended_witness :
    hasDirectAnchor [buildNewTaskBodyXml "x" "t"] "x" = true :=
  (claim_c6_amended "x" "t" [] [] [] "x" (by decide) (by decide)).1

/-- Counterexample to claim C6 as frozen: for the external identifier a&b the
engine emits a fresh body whose only anchor carries the escaped parameter
value, so no anchor parameter in the emitted task body equals the external
identifier itself. -/
theorem claim_c6_counterexample :
    (renderItem [] ⟨"a&b", "t"⟩ [] 0).1.body = [buildNewTaskBodyXml "a&b" "t"] ∧
      hasDirectAnchor [buildNewTaskBodyXml "a&b" "t"] "a&b" = false :=
  ⟨rfl, by decide⟩

theorem tasksFold_skip (ts1 ts2 : List XNode) (t : XNode)
    (ha : taskAnchorOf t = none) :
    tasksFold (ts1 ++ t :: ts2) = tasksFold (ts1 ++ ts2) := by
  unfold tasksFold
  rw [List.foldl_append, List.foldl_append, List.foldl_cons]
  congr 1
  simp [ha]

/-- Claim C7: a task in the selected managed panel with no discoverable
anchor contributes nothing to the existing-item index, and therefore nothing
it carries can appear in the rebuilt panel content, which is a function of
the index alone; no error is raised (the functions are total). -/
theorem claim_c7 (doc : List XNode) (title : String) (p t : XNode)
    (ts1 ts2 : List XNode) (hp : findPanel doc title = some p)
    (hts : (strictDesc p).filter isTaskEl = ts1 ++ t :: ts2)
    (ha : taskAnchorOf t = none) :
    readExistingTasks doc title = tasksFold (ts1 ++ ts2) ∧
    ∀ (spec : ChecklistSpec) (ids : List String) (incl : Bool) (now : Nat),
      buildPanelInner spec (readExistingTasks doc title) ids incl now =
        buildPanelInner spec (tasksFold (ts1 ++ ts2)) ids incl now := by
  have h1 : readExistingTasks doc title = tasksFold (ts1 ++ ts2) := by
    unfold readExistingTasks
    simp only [hp]
    rw [hts]
    exact tasksFold_skip ts1 ts2 t ha
  exact ⟨h1, fun spec ids incl now => by rw [h1]⟩

/-- Witness for claim C7 at a concrete input. -/
theorem claim_c7_witness :
    readExistingTasks
        [xel "ac:structured-macro" [("ac:name", "panel")]
          [xel "ac:parameter" [("ac:name", "title")] [.text "T"],
            xel "ac:rich-text-body" [] [taskNode ⟨"1", "incomplete", []⟩]]] "T" =
      tasksFold ([] ++ []) :=
  (claim_c7
    [xel "ac:structured-macro" [("ac:name", "panel")]
      [xel "ac:parameter" [("ac:name", "title")] [.text "T"],
        xel "ac:rich-text-body" [] [taskNode ⟨"1", "incomplete", []⟩]]] "T"
    (xel "ac:structured-macro" [("ac:name", "panel")]
      [xel "ac:parameter" [("ac:name", "title")] [.text "T"],
        xel "ac:rich-text-body" [] [taskNode ⟨"1", "incomplete", []⟩]])
    (taskNode ⟨"1", "incomplete", []⟩) [] [] rfl rfl rfl).1

theorem putPageWithRetry_ok (storage : String) (version retries k : Nat)
    (puts : Nat → PutRes) (fetches : Nat → Option Nat) (h : puts k = PutRes.ok) :
    putPageWithRetry storage version retries puts fetches k =
      ([(storage, version + 1)], Except.ok ()) := by
  rw [putPageWithRetry.eq_def, h]

theorem putPageWithRetry_conflict (storage : String) (version r k : Nat)
    (puts : Nat → PutRes) (fetches : Nat → Option Nat) (msg : String)
    (h : puts k = PutRes.err true msg) :
    putPageWithRetry storage version (r + 1) puts fetches k =
      ((storage, version + 1) ::
        (putPageWithRetry storage ((fetches k).getD version) r puts
          fetches (k + 1)).1,
        (putPageWithRetry storage ((fetches k).getD version) r puts
          fetches (k + 1)).2) := by
  rw [putPageWithRetry.eq_def, h]

theorem putPageWithRetry_conflict0 (storage : String) (version k : Nat)
    (puts : Nat → PutRes) (fetches : Nat → Option Nat) (msg : String)
    (h : puts k = PutRes.err true msg) :
    putPageWithRetry storage version 0 puts fetches k =
      ([(storage, version + 1)], Except.error msg) := by
  rw [putPageWithRetry.eq_def, h]

theorem putPageWithRetry_fail (storage : String) (version retries k : Nat)
    (puts : Nat → PutRes) (fetches : Nat → Option Nat) (msg : String)
    (h : puts k = PutRes.err false msg) :
    putPageWithRetry storage version retries puts fetches k =
      ([(storage, version + 1)], Except.error msg) := by
  rw [putPageWithRetry.eq_def, h]

theorem putRetry_frame (storage : String) (puts : Nat → PutRes)
    (fetches : Nat → Option Nat) : ∀ (retries k version : Nat),
    (∀ p ∈ (putPageWithRetry storage version retries puts fetches k).1,
      p.1 = storage) ∧
    (putPageWithRetry storage version retries puts fetches k).1.length ≤
      retries + 1 := by
  intro retries
  induction retries with
  | zero =>
    intro k version
    cases h : puts k with
    | ok => simp [putPageWithRetry_ok _ _ _ _ _ _ h]
    | err cf msg =>
      cases cf
      · simp [putPageWithRetry_fail _ _ _ _ _ _ _ h]
      · simp [putPageWithRetry_conflict0 _ _ _ _ _ _ h]
  | succ r ih =>
    intro k version
    cases h : puts k with
    | ok => simp [putPageWithRetry_ok _ _ _ _ _ _ h]
    | err cf msg =>
      cases cf with
      | false => simp [putPageWithRetry_fail _ _ _ _ _ _ _ h]
      | true =>
        rw [putPageWithRetry_conflict _ _ _ _ _ _ _ h]
        simp only [List.mem_cons, List.length_cons]
        constructor
        · rintro p (rfl | hp)
          · rfl
          · exact ((ih (k + 1) ((fetches k).getD version)).1) p hp
        · have := (ih (k + 1) ((fetches k).getD version)).2
          omega

/-- Claim C10: every attempt sends the identical already-computed markup; at
most three PUTs happen (one plus two retries); a non-conflict error surfaces
immediately with no retry; a conflict retry re-sends against the re-fetched
latest version number; and when all three attempts hit conflicts the last
error is surfaced to the caller. -/
theorem claim_c10 (storage : String) (version : Nat) (puts : Nat → PutRes)
    (fetches : Nat → Option Nat) :
    (∀ p ∈ (putPageWithRetry storage version 2 puts fetches 0).1, p.1 = storage) ∧
    (putPageWithRetry storage version 2 puts fetches 0).1.length ≤ 3 ∧
    (∀ msg, puts 0 = PutRes.err false msg →
      putPageWithRetry storage version 2 puts fetches 0 =
        ([(storage, version + 1)], Except.error msg)) ∧
    (∀ msg v1, puts 0 = PutRes.err true msg → fetches 0 = some v1 →
      (putPageWithRetry storage version 2 puts fetches 0).1.get? 1 =
        some (storage, v1 + 1)) ∧
    (∀ m0 m1 m2, puts 0 = PutRes.err true m0 → puts 1 = PutRes.err true m1 →
      puts 2 = PutRes.err true m2 →
      (putPageWithRetry storage version 2 puts fetches 0).2 = Except.error m2 ∧
        (putPageWithRetry storage version 2 puts fetches 0).1.length = 3) := by
  refine ⟨(putRetry_frame storage puts fetches 2 0 version).1,
    (putRetry_frame storage puts fetches 2 0 version).2, ?_, ?_, ?_⟩
  · intro msg h0
    exact putPageWithRetry_fail _ _ _ _ _ _ _ h0
  · intro msg v1 h0 hf
    rw [putPageWithRetry_conflict _ _ _ _ _ _ _ h0, hf]
    cases h1 : puts 1 with
    | ok => simp [putPageWithRetry_ok _ _ _ _ _ _ h1, Option.getD]
    | err cf m =>
      cases cf
      · simp [putPageWithRetry_fail _ _ _ _ _ _ _ h1, Option.getD]
      · simp [putPageWithRetry_conflict _ _ _ _ _ _ _ h1, Option.getD]
  · intro m0 m1 m2 h0 h1 h2
    rw [putPageWithRetry_conflict _ _ _ _ _ _ _ h0,
      putPageWithRetry_conflict _ _ _ _ _ _ _ h1,
      putPageWithRetry_conflict0 _ _ _ _ _ _ h2]
    simp

/-- Witness for claim C10 at a concrete input. -/
theorem claim_c10_witness :
    (putPageWithRetry "m" 4 2 (fun _ => PutRes.ok) (fun _ => none) 0).1.length ≤ 3 :=
  (claim_c10 "m" 4 (fun _ => PutRes.ok) (fun _ => none)).2.1

theorem nodeAll_elem_eq (t : String) (a : List (String × String)) (c : XForest) :
    nodeAll (.elem t a c) = .elem t a c :: fAll c := rfl

theorem noMatch_cond_false {x : XNode} {title : String}
    (h : ¬(isPanelEl x = true ∧ panelTitleText x = title)) :
    (isPanelEl x && decide (panelTitleText x = title)) = false := by
  rcases Bool.eq_false_or_eq_true (isPanelEl x) with hb | hb
  · simp only [hb, Bool.true_and, decide_eq_false_iff_not]
    intro he
    exact h ⟨hb, he⟩
  · simp [hb]

mutual
theorem spN_noMatch (title : String) (inner : List XNode) :
    ∀ (n : XNode),
      (∀ x ∈ nodeAll n, ¬(isPanelEl x = true ∧ panelTitleText x = title)) →
        spN title inner n = (n, false)
  | .text s, _ => by simp [spN]
  | .elem t a c, h => by
      have hroot := h (.elem t a c)
        (by rw [nodeAll_elem_eq]; exact List.mem_cons_self _ _)
      have hsub : ∀ x ∈ fAll c, ¬(isPanelEl x = true ∧ panelTitleText x = title) :=
        fun x hx => h x (by rw [nodeAll_elem_eq]; exact List.mem_cons_of_mem _ hx)
      rw [spN, if_neg (by simp [noMatch_cond_false hroot]),
        spF_noMatch title inner c hsub]
theorem spF_noMatch (title : String) (inner : List XNode) :
    ∀ (f : XForest),
      (∀ x ∈ fAll f, ¬(isPanelEl x = true ∧ panelTitleText x = title)) →
        spF title inner f = (f, false)
  | .nil, _ => by simp [spF]
  | .cons n t, h => by
      have hn : ∀ x ∈ nodeAll n, ¬(isPanelEl x = true ∧ panelTitleText x = title) :=
        fun x hx => h x (by rw [fAll]; exact List.mem_append_left _ hx)
      have ht : ∀ x ∈ fAll t, ¬(isPanelEl x = true ∧ panelTitleText x = title) :=
        fun x hx => h x (by rw [fAll]; exact List.mem_append_right _ hx)
      rw [spF, spN_noMatch title inner n hn, spF_noMatch title inner t ht]
end

theorem spL_noMatch (title : String) (inner : List XNode) :
    ∀ (ns : List XNode),
      (∀ x ∈ forestAll ns, ¬(isPanelEl x = true ∧ panelTitleText x = title)) →
        spL title inner ns = (ns, false) := by
  intro ns
  induction ns with
  | nil => intro _; rfl
  | cons n t ih =>
    intro h
    have hn : ∀ x ∈ nodeAll n, ¬(isPanelEl x = true ∧ panelTitleText x = title) :=
      fun x hx => h x (by rw [forestAll_cons]; exact List.mem_append_left _ hx)
    have ht : ∀ x ∈ forestAll t, ¬(isPanelEl x = true ∧ panelTitleText x = title) :=
      fun x hx => h x (by rw [forestAll_cons]; exact List.mem_append_right _ hx)
    rw [spL, spN_noMatch title inner n hn, ih ht]

theorem spL_append_noMatch (title : String) (inner : List XNode)
    (pre rest : List XNode)
    (h : ∀ x ∈ forestAll pre, ¬(isPanelEl x = true ∧ panelTitleText x = title))
    (hr : (spL title inner rest).2 = true) :
    spL title inner (pre ++ rest) =
      (pre ++ (spL title inner rest).1, true) := by
  induction pre with
  | nil =>
    simp only [List.nil_append]
    cases hsp : spL title inner rest with
    | mk r1 r2 =>
      rw [hsp] at hr
      simp at hr
      subst hr
      rfl
  | cons n t ih =>
    have hn : ∀ x ∈ nodeAll n, ¬(isPanelEl x = true ∧ panelTitleText x = title) :=
      fun x hx => h x (by rw [forestAll_cons]; exact List.mem_append_left _ hx)
    have ht : ∀ x ∈ forestAll t, ¬(isPanelEl x = true ∧ panelTitleText x = title) :=
      fun x hx => h x (by rw [forestAll_cons]; exact List.mem_append_right _ hx)
    rw [List.cons_append, spL, spN_noMatch title inner n hn, ih ht]
    rfl

theorem spN_hit (title : String) (inner : List XNode) (tg : String)
    (a : List (String × String)) (c : XForest)
    (h1 : isPanelEl (.elem tg a c) = true)
    (h2 : panelTitleText (.elem tg a c) = title) :
    spN title inner (.elem tg a c) = (replaceFirstRtb (.elem tg a c) inner, true) := by
  rw [spN, if_pos (by simp [h1, h2])]

mutual
theorem repRtbN_false (inner : List XNode) :
    ∀ (n : XNode), (repRtbN inner n).2 = false →
      (repRtbN inner n).1 = n ∧ (nodeAll n).find? isRtbEl = none
  | .text s, _ => by simp [repRtbN, nodeAll, isRtbEl, isElemNamed]
  | .elem t a c, h => by
      by_cases htag : t = "ac:rich-text-body"
      · rw [repRtbN, if_pos htag] at h
        simp at h
      · rw [repRtbN, if_neg htag] at h ⊢
        cases hc : repRtbF inner c with
        | mk c' b =>
          rw [hc] at h
          cases b with
          | true => exact Bool.noConfusion h
          | false =>
            have hind := repRtbF_false inner c (by rw [hc])
            refine ⟨rfl, ?_⟩
            rw [nodeAll_elem_eq, List.find?_cons_of_neg, hind.2]
            simp [isRtbEl, isElemNamed, htag]
theorem repRtbF_false (inner : List XNode) :
    ∀ (f : XForest), (repRtbF inner f).2 = false →
      (repRtbF inner f).1 = f ∧ (fAll f).find? isRtbEl = none
  | .nil, _ => by simp [repRtbF, fAll]
  | .cons n t, h => by
      rw [repRtbF] at h ⊢
      cases hn : repRtbN inner n with
      | mk n' bn =>
        rw [hn] at h
        cases bn with
        | true => exact Bool.noConfusion h
        | false =>
          cases ht : repRtbF inner t with
          | mk t' bt =>
            rw [ht] at h
            cases bt with
            | true => exact Bool.noConfusion h
            | false =>
              have hindn := repRtbN_false inner n (by rw [hn])
              have hindt := repRtbF_false inner t (by rw [ht])
              refine ⟨rfl, ?_⟩
              rw [fAll, List.find?_append, hindn.2, hindt.2]
              rfl
end

mutual
theorem repRtbN_true (inner : List XNode) :
    ∀ (n : XNode), (repRtbN inner n).2 = true →
      ∃ a', (nodeAll (repRtbN inner n).1).find? isRtbEl =
        some (.elem "ac:rich-text-body" a' (XForest.ofList inner))
  | .text s, h => by simp [repRtbN] at h
  | .elem t a c, h => by
      by_cases htag : t = "ac:rich-text-body"
      · subst htag
        rw [repRtbN, if_pos rfl]
        refine ⟨a, ?_⟩
        rw [nodeAll_elem_eq]
        exact List.find?_cons_of_pos _ (by simp [isRtbEl, isElemNamed])
      · rw [repRtbN, if_neg htag] at h ⊢
        cases hc : repRtbF inner c with
        | mk c' b =>
          rw [hc] at h
          cases b with
          | false => exact Bool.noConfusion h
          | true =>
            obtain ⟨a', ha'⟩ := repRtbF_true inner c (by rw [hc])
            rw [hc] at ha'
            refine ⟨a', ?_⟩
            rw [nodeAll_elem_eq, List.find?_cons_of_neg, ha']
            simp [isRtbEl, isElemNamed, htag]
theorem repRtbF_true (inner : List XNode) :
    ∀ (f : XForest), (repRtbF inner f).2 = true →
      ∃ a', (fAll (repRtbF inner f).1).find? isRtbEl =
        some (.elem "ac:rich-text-body" a' (XForest.ofList inner))
  | .nil, h => by simp [repRtbF] at h
  | .cons n t, h => by
      rw [repRtbF] at h ⊢
      cases hn : repRtbN inner n with
      | mk n' bn =>
        rw [hn] at h
        cases bn with
        | true =>
          obtain ⟨a', ha'⟩ := repRtbN_true inner n (by rw [hn])
          rw [hn] at ha'
          refine ⟨a', ?_⟩
          rw [fAll, List.find?_append, ha']
          rfl
        | false =>
          cases ht : repRtbF inner t with
          | mk t' bt =>
            rw [ht] at h
            cases bt with
            | false => exact Bool.noConfusion h
            | true =>
              have hindn := repRtbN_false inner n (by rw [hn])
              obtain ⟨a', ha'⟩ := repRtbF_true inner t (by rw [ht])
              rw [ht] at ha'
              refine ⟨a', ?_⟩
              have hfind : (nodeAll n).find? isRtbEl = none := by
                have := hindn.2
                exact this
              rw [fAll, List.find?_append, hfind, ha']
              rfl
end

/-- Claim C9: when a panel with the target title exists, the replacer returns
the document with every surrounding node untouched and only that first
matching panel rewritten, its first rich-text-body now holding exactly the
new inner content; when no panel matches anywhere, the document is returned
with a brand-new panel container appended at the end. -/
theorem claim_c9 (doc pre post inner : List XNode) (title tg : String)
    (a : List (String × String)) (c : XForest) :
    ((∀ x ∈ forestAll pre, ¬(isPanelEl x = true ∧ panelTitleText x = title)) →
      isPanelEl (.elem tg a c) = true → panelTitleText (.elem tg a c) = title →
      setManagedPanel (pre ++ .elem tg a c :: post) title inner =
        pre ++ replaceFirstRtb (.elem tg a c) inner :: post) ∧
    ((repRtbF inner c).2 = true →
      ∃ a', firstEl isRtbEl (strictDesc (replaceFirstRtb (.elem tg a c) inner)) =
        some (.elem "ac:rich-text-body" a' (XForest.ofList inner))) ∧
    ((∀ x ∈ forestAll doc, ¬(isPanelEl x = true ∧ panelTitleText x = title)) →
      setManagedPanel doc title inner =
        (if xmlOfF doc = "" then [] else doc ++ [.text "\n"]) ++
          [panelNodeNew title inner, .text "\n"]) := by
  refine ⟨?_, ?_, ?_⟩
  · intro hpre h1 h2
    have hR : spL title inner (.elem tg a c :: post) =
        (replaceFirstRtb (.elem tg a c) inner :: post, true) := by
      rw [spL, spN_hit title inner tg a c h1 h2]
    have hL := spL_append_noMatch title inner pre (.elem tg a c :: post) hpre
      (by rw [hR])
    rw [hR] at hL
    simp only [setManagedPanel, hL]
  · intro hrep
    cases hc : repRtbF inner c with
    | mk c' b =>
      rw [hc] at hrep
      cases b with
      | false => exact Bool.noConfusion hrep
      | true =>
        have hre : replaceFirstRtb (.elem tg a c) inner = .elem tg a c' := by
          simp only [replaceFirstRtb, hc]
        rw [hre]
        obtain ⟨a', ha'⟩ := repRtbF_true inner c (by rw [hc])
        rw [hc] at ha'
        refine ⟨a', ?_⟩
        have hsd : strictDesc (XNode.elem tg a c') = fAll c' := by
          show forestAll (childrenOf (XNode.elem tg a c')) = fAll c'
          rw [show childrenOf (XNode.elem tg a c') = c'.toList from rfl,
            ← fAll_toList]
        unfold firstEl
        rw [hsd]
        exact ha'
  · intro hdoc
    simp only [setManagedPanel, spL_noMatch title inner doc hdoc]

/-- Witness for claim C9 at a concrete input. -/
theorem claim_c9_witness :
    setManagedPanel ([] ++ XNode.elem "ac:structured-macro" [("ac:name", "panel")]
        (XForest.ofList [xel "ac:parameter" [("ac:name", "title")] [.text "T"]]) :: [])
        "T" [] =
      [] ++ replaceFirstRtb (XNode.elem "ac:structured-macro" [("ac:name", "panel")]
        (XForest.ofList [xel "ac:parameter" [("ac:name", "title")] [.text "T"]])) [] :: [] :=
  (claim_c9 [] [] [] [] "T" "ac:structured-macro" [("ac:name", "panel")]
    (XForest.ofList [xel "ac:parameter" [("ac:name", "title")] [.text "T"]])).1
    (by simp [forestAll]) (by decide) (by decide)

/-- Counterexample to claim C1 as frozen: one item, empty starting document.
The first sync appends the managed panel; re-running the sync on its output
still reports updated = true, because the replace path drops the whitespace
that the append template put around the panel inner content, and the
normalized documents differ by exactly those spaces. -/
theorem claim_c1_counterexample :
    (syncStep ⟨"", "", [⟨"", [⟨"x", "t"⟩]⟩]⟩
      (syncStep ⟨"", "", [⟨"", [⟨"x", "t"⟩]⟩]⟩ [] false 0).stored false 5).updated =
      true := by
  decide

theorem pred_panel_false {x : XNode} {title : String}
    (h : ¬(isPanelEl x = true ∧ panelTitleText x = title)) :
    (isPanelEl x && decide (panelTitleText x = title)) ≠ true := by
  rw [noMatch_cond_false h]
  simp

theorem findPanel_noMatch (doc : List XNode) (title : String)
    (h : NoMatchingPanel doc title) : findPanel doc title = none := by
  unfold findPanel
  rw [List.find?_eq_none]
  intro x hx hp
  simp only [Bool.and_eq_true, decide_eq_true_eq] at hp
  exact h x hx ⟨hp.1, hp.2⟩

theorem readExistingTasks_noMatch (doc : List XNode) (title : String)
    (h : NoMatchingPanel doc title) : readExistingTasks doc title = [] := by
  unfold readExistingTasks
  rw [findPanel_noMatch doc title h]

theorem renderItem_empty_map (it : ChecklistItem) (ids : List String) (now : Nat) :
    renderItem [] it ids now =
      (⟨(allocateTaskId ids now).1, "incomplete",
        [buildNewTaskBodyXml it.id it.text]⟩, (allocateTaskId ids now).2) := rfl

theorem renderItems_empty_fresh (now : Nat) :
    ∀ (items : List ChecklistItem) (ids : List String),
      List.Forall₂ FreshRendered items (renderItems [] now items ids).1 := by
  intro items
  induction items with
  | nil => intro ids; exact List.Forall₂.nil
  | cons it its ih =>
    intro ids
    rw [renderItems, renderItem_empty_map]
    exact List.Forall₂.cons
      ⟨rfl, rfl, allocateTaskId_digitStr ids now⟩ (ih _)

theorem renderSections_empty_chunks (now : Nat) :
    ∀ (ss : List ChecklistSection) (ids : List String),
      ∃ rss, (renderSections [] now ss ids).1 = sectionsChunks ss rss ∧
        List.Forall₂ (fun (s : ChecklistSection) rs =>
          List.Forall₂ FreshRendered s.items rs) ss rss := by
  intro ss
  induction ss with
  | nil => intro ids; exact ⟨[], rfl, List.Forall₂.nil⟩
  | cons s ss ih =>
    intro ids
    obtain ⟨rss, heq, hF⟩ := ih (renderItems [] now s.items ids).2
    refine ⟨(renderItems [] now s.items ids).1 :: rss, ?_,
      List.Forall₂.cons (renderItems_empty_fresh now s.items ids) hF⟩
    rw [renderSections, sectionsChunks, heq]

theorem buildPanelInner_empty_map (spec : ChecklistSpec) (ids : List String)
    (incl : Bool) (now : Nat) :
    buildPanelInner spec [] ids incl now =
      (List.intersperse (.text "\n")
        ((if spec.title = "" then [] else [h2Node spec.title]) ++
          (renderSections [] now spec.sections ids).1),
        (renderSections [] now spec.sections ids).2) := by
  unfold buildPanelInner
  cases incl with
  | false => rfl
  | true => simp

theorem count_map_ws (l : List Char) :
    (l.map fun c => if wsChar c then ' ' else c).count '<' = l.count '<' := by
  induction l with
  | nil => rfl
  | cons c t ih =>
    rw [List.map_cons, List.count_cons, List.count_cons, ih]
    congr 1
    by_cases hw : wsChar c = true
    · have h1 : c ≠ '<' := by
        intro h; subst h; exact absurd hw (by decide)
      simp [hw, h1]
    · simp only [Bool.not_eq_true] at hw
      simp [hw]

theorem squeeze_count : ∀ (l : List Char), (squeeze l).count '<' = l.count '<'
  | [] => rfl
  | [a] => rfl
  | a :: b :: t => by
      rw [squeeze]
      by_cases hab : (a = ' ' && b = ' ') = true
      · simp only [hab, if_true]
        rw [squeeze_count (b :: t)]
        simp only [Bool.and_eq_true, decide_eq_true_eq] at hab
        rw [List.count_cons, hab.1]
        simp [List.count_cons]
      · simp only [Bool.not_eq_true] at hab
        rw [hab]
        simp only [Bool.false_eq_true, if_false]
        rw [List.count_cons, List.count_cons, squeeze_count (b :: t)]

theorem count_dropWhile_ws (l : List Char) :
    (l.dropWhile wsChar).count '<' = l.count '<' := by
  induction l with
  | nil => rfl
  | cons c t ih =>
    rw [List.dropWhile_cons]
    by_cases hw : wsChar c = true
    · rw [if_pos hw, ih, List.count_cons]
      have h1 : c ≠ '<' := by
        intro h; subst h; exact absurd hw (by decide)
      simp [h1]
    · rw [if_neg hw]

theorem count_trimList (l : List Char) : (trimList l).count '<' = l.count '<' := by
  unfold trimList
  rw [List.count_reverse, count_dropWhile_ws, List.count_reverse,
    count_dropWhile_ws]

theorem cnt_normalize (s : String) : cntLt (normalizeXml s) = cntLt s := by
  show (trimList (squeeze (s.data.map fun c => if wsChar c then ' ' else c))).count '<' =
    s.data.count '<'
  rw [count_trimList, squeeze_count, count_map_ws]

theorem cnt_append (s t : String) : cntLt (s ++ t) = cntLt s + cntLt t := by
  show (s ++ t).data.count '<' = s.data.count '<' + t.data.count '<'
  rw [String.data_append s t, List.count_append]

theorem cnt_elem_cons (t : String) (a : List (String × String)) (x : XNode)
    (f : XForest) : 1 ≤ cntLt (xmlOfN (.elem t a (.cons x f))) := by
  rw [xmlOfN]
  simp only [cnt_append]
  have h1 : cntLt "<" = 1 := rfl
  omega

theorem panelNodeNew_children (title : String) (inner : List XNode) :
    ∃ x f, panelNodeNew title inner = .elem "ac:structured-macro"
      [("ac:name", "panel")] (.cons x f) := by
  exact ⟨_, _, rfl⟩

theorem cnt_xmlOfF_append_panel (doc0 : List XNode) (title : String)
    (inner : List XNode) :
    cntLt (xmlOfF ((if xmlOfF doc0 = "" then [] else doc0 ++ [.text "\n"]) ++
        [panelNodeNew title inner, .text "\n"])) =
      cntLt (xmlOfF doc0) + cntLt (xmlOfN (panelNodeNew title inner)) := by
  by_cases h0 : xmlOfF doc0 = ""
  · rw [if_pos h0, h0]
    rw [List.nil_append, xmlOfF_cons, xmlOfF_cons]
    show cntLt (xmlOfN (panelNodeNew title inner) ++ ("\n" ++ xmlOfF [])) = _
    rw [cnt_append, cnt_append]
    have : cntLt "" = 0 := rfl
    have h2 : cntLt "\n" = 0 := rfl
    show _ + (cntLt "\n" + cntLt (xmlOfF [])) = cntLt "" + _
    rw [h2]
    show _ + (0 + cntLt "") = _
    rw [this]
    omega
  · rw [if_neg h0, xmlOfF_append, xmlOfF_append, cnt_append, cnt_append,
      xmlOfF_cons, xmlOfF_cons]
    show cntLt (xmlOfF doc0) + cntLt ("\n" ++ xmlOfF []) +
      cntLt (xmlOfN (panelNodeNew title inner) ++ ("\n" ++ xmlOfF [])) = _
    rw [cnt_append, cnt_append]
    have h1 : cntLt "" = 0 := rfl
    have h2 : cntLt "\n" = 0 := rfl
    show _ + (cntLt "\n" + cntLt "") + (_ + (cntLt "\n" + cntLt "")) = _
    rw [h1, h2]
    omega

theorem syncStep_fresh (spec : ChecklistSpec) (doc0 : List XNode) (incl : Bool)
    (now : Nat) (hno : NoMatchingPanel doc0 (panelTitleOf spec)) :
    syncStep spec doc0 incl now =
      ⟨(if xmlOfF doc0 = "" then [] else doc0 ++ [.text "\n"]) ++
        [panelNodeNew (panelTitleOf spec)
          (buildPanelInner spec [] (collectAllTaskIdsOnPage doc0) incl now).1,
          .text "\n"], true⟩ := by
  have hpredno : ∀ x ∈ forestAll doc0,
      ¬(isPanelEl x = true ∧ panelTitleText x = panelTitleOf spec) := hno
  have hset : setManagedPanel doc0 (panelTitleOf spec)
      (buildPanelInner spec [] (collectAllTaskIdsOnPage doc0) incl now).1 =
        (if xmlOfF doc0 = "" then [] else doc0 ++ [.text "\n"]) ++
          [panelNodeNew (panelTitleOf spec)
            (buildPanelInner spec [] (collectAllTaskIdsOnPage doc0) incl now).1,
            .text "\n"] := by
    simp only [setManagedPanel,
      spL_noMatch (panelTitleOf spec) _ doc0 hpredno]
  show (let m := readExistingTasks doc0 (panelTitleOf spec)
        let ids := collectAllTaskIdsOnPage doc0
        let inner := buildPanelInner spec m ids incl now
        let newDoc := setManagedPanel doc0 (panelTitleOf spec) inner.1
        if normalizeXml (xmlOfF doc0) = normalizeXml (xmlOfF newDoc) then
          SyncOut.mk doc0 false
        else SyncOut.mk newDoc true) = _
  rw [readExistingTasks_noMatch doc0 _ hno]
  simp only [hset]
  rw [if_neg]
  intro heq
  have hc := congrArg cntLt heq
  rw [cnt_normalize, cnt_normalize, cnt_xmlOfF_append_panel] at hc
  obtain ⟨x, f, hx⟩ := panelNodeNew_children (panelTitleOf spec)
    (buildPanelInner spec [] (collectAllTaskIdsOnPage doc0) incl now).1
  have := cnt_elem_cons "ac:structured-macro" [("ac:name", "panel")] x f
  rw [← hx] at this
  omega

theorem firstTaskBody_taskNode_fresh (r : RTask) (id txt : String)
    (hb : r.body = [buildNewTaskBodyXml id txt]) :
    firstEl isTaskBodyEl (strictDesc (taskNode r)) =
      some (buildNewTaskBodyXml id txt) := by
  rw [strictDesc_taskNode, hb]
  simp [firstEl, List.find?_cons, isTaskBodyEl, isElemNamed_xel, isElemNamed_text,
    buildNewTaskBodyXml, anchorNodeOf, forestAll_cons, nodeAll_xel, nodeAll_text,
    forestAll_nil]

theorem strictDesc_fresh_filter_anchor (id txt : String) :
    (strictDesc (buildNewTaskBodyXml id txt)).filter isAnchorEl =
      [anchorNodeOf id] := by
  simp [buildNewTaskBodyXml, anchorNodeOf, strictDesc_xel, forestAll_cons,
    nodeAll_xel, nodeAll_text, forestAll_nil, List.filter_cons, isAnchorEl,
    isElemNamed_xel, isElemNamed_text, attrOf_xel, List.lookup]

theorem taskAnchorOf_fresh (r : RTask) (id txt : String)
    (hb : r.body = [buildNewTaskBodyXml id txt]) (h1 : escapeXml id = id)
    (h2 : trimStr id = id) (h3 : id ≠ "") :
    taskAnchorOf (taskNode r) = some id := by
  unfold taskAnchorOf
  rw [firstTaskBody_taskNode_fresh r id txt hb]
  simp only [strictDesc_fresh_filter_anchor]
  simp [List.foldl, anchorNodeOf, strictDesc_xel, forestAll_cons, nodeAll_xel,
    nodeAll_text, forestAll_nil, firstEl, List.find?_cons, isEmptyParam,
    isElemNamed_xel, isElemNamed_text, attrOf_xel, List.lookup, textOfOpt,
    textOfN_xel_text, h1, h2, h3]

theorem taskDataOf_fresh (r : RTask) (id txt : String)
    (hs : r.status = "incomplete") (hd : digitStr r.taskId)
    (hb : r.body = [buildNewTaskBodyXml id txt]) :
    taskDataOf (taskNode r) = ⟨"incomplete", some r.taskId, r.body⟩ := by
  have hst : trimStr (textOfOpt (firstEl isTaskStatusEl (strictDesc (taskNode r)))) =
      "incomplete" := by
    show taskStatusRead (taskNode r) = _
    rw [taskStatusRead_taskNode, hs]
    exact trimStr_incomplete
  have hti : trimStr (textOfOpt (firstEl isTaskIdEl (strictDesc (taskNode r)))) =
      r.taskId := by
    show taskIdRead (taskNode r) = _
    rw [taskIdRead_taskNode]
    exact trimStr_of_digitStr hd
  unfold taskDataOf
  rw [hst, hti, firstTaskBody_taskNode_fresh r id txt hb]
  have hne : r.taskId ≠ "" := hd.1
  simp [hne, hb]

theorem forestAll_fresh (id txt : String) :
    forestAll [buildNewTaskBodyXml id txt] =
      [buildNewTaskBodyXml id txt,
        xel "p" [] [anchorNodeOf id, .text (" " ++ escapeXml txt)],
        xel "ac:structured-macro" [("ac:name", "anchor")]
          [xel "ac:parameter" [("ac:name", "")] [.text (escapeXml id)]],
        xel "ac:parameter" [("ac:name", "")] [.text (escapeXml id)],
        .text (escapeXml id), .text (" " ++ escapeXml txt)] := by
  simp [buildNewTaskBodyXml, anchorNodeOf, forestAll_cons, nodeAll_xel,
    nodeAll_text, forestAll_nil]

theorem noTasksIn_fresh (id txt : String) :
    NoTasksIn [buildNewTaskBodyXml id txt] := by
  intro n hn
  rw [forestAll_fresh] at hn
  rcases List.mem_cons.mp hn with rfl | hn
  · simp [isTaskEl, buildNewTaskBodyXml, isElemNamed_xel]
  rcases List.mem_cons.mp hn with rfl | hn
  · simp [isTaskEl, isElemNamed_xel]
  rcases List.mem_cons.mp hn with rfl | hn
  · simp [isTaskEl, isElemNamed_xel]
  rcases List.mem_cons.mp hn with rfl | hn
  · simp [isTaskEl, isElemNamed_xel]
  rcases List.mem_cons.mp hn with rfl | hn
  · rfl
  rcases List.mem_cons.mp hn with rfl | hn
  · rfl
  exact absurd hn (List.not_mem_nil n)

theorem isTaskEl_taskNode (r : RTask) : isTaskEl (taskNode r) = true := by
  simp [taskNode, isTaskEl, isElemNamed_xel]

theorem filter_tasks_taskNode (r : RTask) (h : NoTasksIn r.body) :
    (nodeAll (taskNode r)).filter isTaskEl = [taskNode r] := by
  rw [nodeAll_eq_cons_strictDesc, List.filter_cons, isTaskEl_taskNode]
  simp only [if_true]
  congr 1
  rw [List.filter_eq_nil_iff]
  intro x hx
  rw [strictDesc_taskNode] at hx
  simp only [List.mem_append, List.mem_cons, List.mem_singleton,
    List.not_mem_nil, or_false] at hx
  rcases hx with (hx | hx) | rfl
  · rcases hx with rfl | rfl | rfl | rfl | rfl | rfl | rfl <;>
      simp [isTaskEl, isElemNamed_xel, isElemNamed_text]
  · have := h x hx
    simp [this]
  · simp [isTaskEl, isElemNamed_text]

theorem filter_tasks_flatMap (rs : List RTask)
    (h : ∀ r ∈ rs, NoTasksIn r.body) :
    (forestAll (rs.flatMap fun r => [taskNode r, .text "\n"])).filter isTaskEl =
      rs.map taskNode := by
  induction rs with
  | nil => rfl
  | cons r rs ih =>
    rw [List.flatMap_cons, forestAll_append, List.filter_append]
    have h1 : (forestAll [taskNode r, .text "\n"]).filter isTaskEl =
        [taskNode r] := by
      rw [forestAll_cons, forestAll_cons, forestAll_nil]
      simp only [nodeAll_text, List.append_nil]
      rw [List.filter_append, filter_tasks_taskNode r (h r (by simp))]
      simp [List.filter_cons, isTaskEl, isElemNamed_text]
    rw [h1, ih (fun x hx => h x (by simp [hx]))]
    simp

theorem filter_tasks_taskListNode (rs : List RTask)
    (h : ∀ r ∈ rs, NoTasksIn r.body) :
    (forestAll [taskListNode rs]).filter isTaskEl = rs.map taskNode := by
  rw [forestAll_cons, forestAll_nil, List.append_nil, taskListNode, nodeAll_xel,
    List.filter_cons]
  have hlist : isTaskEl (xel "ac:task-list" []
      (.text "\n" :: rs.flatMap fun r => [taskNode r, .text "\n"])) = false := by
    simp [isTaskEl, isElemNamed_xel]
  rw [hlist]
  simp only [Bool.false_eq_true, if_false]
  rw [forestAll_cons]
  simp only [nodeAll_text, List.singleton_append, List.filter_cons]
  have htext : isTaskEl (XNode.text "\n") = false := rfl
  rw [htext]
  simp only [Bool.false_eq_true, if_false]
  exact filter_tasks_flatMap rs h

theorem forestAll_singleton (x : XNode) : forestAll [x] = nodeAll x := by
  rw [forestAll_cons, forestAll_nil, List.append_nil]

theorem filter_tasks_sectionsChunks : ∀ (ss : List ChecklistSection)
    (rss : List (List RTask)), ss.length = rss.length →
    (∀ rs ∈ rss, ∀ r ∈ rs, NoTasksIn r.body) →
    (forestAll (sectionsChunks ss rss)).filter isTaskEl =
      rss.flatten.map taskNode := by
  intro ss
  induction ss with
  | nil =>
    intro rss hlen _
    cases rss with
    | nil => rfl
    | cons rs rss => exact absurd hlen (by simp)
  | cons s ss ih =>
    intro rss hlen h
    cases rss with
    | nil => exact absurd hlen (by simp)
    | cons rs rss =>
      rw [sectionsChunks, forestAll_append, List.filter_append, forestAll_cons,
        List.filter_append]
      have hhead : ((forestAll (if s.heading = "" then []
          else [h3Node s.heading])).filter isTaskEl) = [] := by
        by_cases hh : s.heading = ""
        · rw [if_pos hh]; rfl
        · rw [if_neg hh, forestAll_singleton, h3Node, nodeAll_xel]
          simp [isTaskEl, isElemNamed_xel, isElemNamed_text, forestAll_nil,
            forestAll_cons, nodeAll_text]
      rw [hhead]
      have htl : (nodeAll (taskListNode rs)).filter isTaskEl =
          rs.map taskNode := by
        rw [← forestAll_singleton]
        exact filter_tasks_taskListNode rs (h rs (by simp))
      rw [htl, ih rss (by simpa using hlen) (fun x hx => h x (by simp [hx]))]
      simp

theorem filter_tasks_intersperse : ∀ (l : List XNode),
    (forestAll (List.intersperse (.text "\n") l)).filter isTaskEl =
      (forestAll l).filter isTaskEl
  | [] => rfl
  | [a] => by rw [List.intersperse_singleton]
  | a :: b :: t => by
      rw [List.intersperse_cons_cons, forestAll_cons, forestAll_cons,
        List.filter_append, List.filter_append]
      rw [filter_tasks_intersperse (b :: t)]
      have hmid : (nodeAll (XNode.text "\n")).filter isTaskEl = [] := rfl
      rw [hmid, forestAll_cons a, List.filter_append]
      simp

theorem filter_tasks_title_chunk (title : String) :
    ((forestAll (if title = "" then [] else [h2Node title])).filter isTaskEl) = [] := by
  by_cases ht : title = ""
  · rw [if_pos ht]; rfl
  · rw [if_neg ht, forestAll_singleton, h2Node, nodeAll_xel]
    simp [isTaskEl, isElemNamed_xel, isElemNamed_text, forestAll_nil,
      forestAll_cons, nodeAll_text]

theorem filter_tasks_inner (title : String) (ss : List ChecklistSection)
    (rss : List (List RTask)) (hlen : ss.length = rss.length)
    (h : ∀ rs ∈ rss, ∀ r ∈ rs, NoTasksIn r.body) :
    (forestAll (List.intersperse (.text "\n")
        ((if title = "" then [] else [h2Node title]) ++ sectionsChunks ss rss))).filter
        isTaskEl = rss.flatten.map taskNode := by
  rw [filter_tasks_intersperse, forestAll_append, List.filter_append,
    filter_tasks_title_chunk, filter_tasks_sectionsChunks ss rss hlen h]
  rfl

theorem filter_tasks_panel_shape (attrs : List (String × String)) (esc : String)
    (rtbKids : List XNode) :
    (strictDesc (xel "ac:structured-macro" attrs
      [.text "\n  ", xel "ac:parameter" [("ac:name", "title")] [.text esc],
        .text "\n  ", xel "ac:rich-text-body" [] rtbKids,
        .text "\n"])).filter isTaskEl = (forestAll rtbKids).filter isTaskEl := by
  rw [strictDesc_xel]
  simp only [forestAll_cons, forestAll_nil, nodeAll_xel, nodeAll_text,
    List.append_nil, List.filter_append, List.filter_cons]
  simp [isTaskEl, isElemNamed_xel, isElemNamed_text, forestAll_cons,
    nodeAll_text, forestAll_nil]

theorem filter_tasks_wrap (inner : List XNode) :
    (forestAll (XNode.text "\n" :: inner ++ [XNode.text "\n  "])).filter isTaskEl =
      (forestAll inner).filter isTaskEl := by
  rw [forestAll_append, List.filter_append, forestAll_cons, nodeAll_text]
  simp [forestAll_cons, nodeAll_text, forestAll_nil, isTaskEl, isElemNamed_text]

theorem tasks_of_panelNodeNew (title : String) (inner : List XNode) :
    (strictDesc (panelNodeNew title inner)).filter isTaskEl =
      (forestAll inner).filter isTaskEl := by
  rw [panelNodeNew, filter_tasks_panel_shape, filter_tasks_wrap]

theorem tasks_of_panelNodeReplaced (title : String) (inner : List XNode) :
    (strictDesc (panelNodeReplaced title inner)).filter isTaskEl =
      (forestAll inner).filter isTaskEl := by
  rw [panelNodeReplaced, filter_tasks_panel_shape]

theorem isPanelEl_shape (kids : List XNode) :
    isPanelEl (xel "ac:structured-macro" [("ac:name", "panel")] kids) = true := by
  simp [isPanelEl, isElemNamed_xel, attrOf_xel, List.lookup]

theorem panelTitleText_shape (esc : String) (rtbKids : List XNode) :
    panelTitleText (xel "ac:structured-macro" [("ac:name", "panel")]
      [.text "\n  ", xel "ac:parameter" [("ac:name", "title")] [.text esc],
        .text "\n  ", xel "ac:rich-text-body" [] rtbKids, .text "\n"]) =
      trimStr esc := by
  unfold panelTitleText
  rw [strictDesc_xel]
  simp only [forestAll_cons, forestAll_nil, nodeAll_xel, nodeAll_text,
    List.append_nil]
  rw [firstEl]
  simp only [List.cons_append, List.nil_append]
  rw [List.find?_cons_of_neg _ (by simp [isTitleParam, isElemNamed_text]),
    List.find?_cons_of_pos _ (by
      simp [isTitleParam, isElemNamed_xel, attrOf_xel, List.lookup])]
  rw [textOfOpt, textOfN_xel_text]

theorem findPanel_front (pre post : List XNode) (P : XNode) (title : String)
    (hpre : ∀ x ∈ forestAll pre, ¬(isPanelEl x = true ∧ panelTitleText x = title))
    (hP1 : isPanelEl P = true) (hP2 : panelTitleText P = title) :
    findPanel (pre ++ P :: post) title = some P := by
  unfold findPanel
  rw [forestAll_append, List.find?_append]
  have h1 : (forestAll pre).find? (fun n =>
      isPanelEl n && decide (panelTitleText n = title)) = none := by
    rw [List.find?_eq_none]
    intro x hx hp
    simp only [Bool.and_eq_true, decide_eq_true_eq] at hp
    exact hpre x hx ⟨hp.1, hp.2⟩
  rw [h1, Option.none_or, forestAll_cons, nodeAll_eq_cons_strictDesc]
  simp only [List.cons_append]
  rw [List.find?_cons_of_pos _ (by simp [hP1, hP2])]

theorem mapSet_append (m : List (String × ExistingTask)) (k : String)
    (v : ExistingTask) (h : ∀ p ∈ m, p.1 ≠ k) :
    mapSet m k v = m ++ [(k, v)] := by
  unfold mapSet
  rw [if_neg]
  intro hany
  rw [List.any_eq_true] at hany
  obtain ⟨p, hp, he⟩ := hany
  exact h p hp (by simpa using he)

theorem tasksFold_pairs_aux :
    ∀ (items : List ChecklistItem) (rs : List RTask)
      (acc : List (String × ExistingTask)),
      List.Forall₂ (fun it r => FreshRendered it r ∧ cleanStr it.id) items rs →
      (items.map fun it => it.id).Nodup →
      (∀ p ∈ acc, p.1 ∉ items.map fun it => it.id) →
      (rs.map taskNode).foldl
        (fun m t =>
          match taskAnchorOf t with
          | some k => mapSet m k (taskDataOf t)
          | none => m) acc = acc ++ (items.zip rs).map pairOf := by
  intro items
  induction items with
  | nil =>
    intro rs acc hF _ _
    cases hF
    simp
  | cons it its ih =>
    intro rs acc hF hnodup hacc
    cases hF with
    | cons hhead htail =>
      rename_i r rs'
      obtain ⟨⟨hs, hb, hd⟩, hc1, hc2, hc3⟩ := hhead
      rw [List.map_cons, List.foldl_cons]
      rw [taskAnchorOf_fresh r it.id it.text hb hc1 hc2 hc3]
      rw [taskDataOf_fresh r it.id it.text hs hd hb]
      have hstep : (match some it.id with
          | some k => mapSet acc k
              (⟨"incomplete", some r.taskId, r.body⟩ : ExistingTask)
          | none => acc) =
            mapSet acc it.id ⟨"incomplete", some r.taskId, r.body⟩ := rfl
      rw [hstep]
      rw [mapSet_append acc it.id _ (fun p hp he =>
        hacc p hp (by rw [he]; simp))]
      rw [List.map_cons] at hnodup
      have hnodup' : (its.map fun it => it.id).Nodup := hnodup.of_cons
      have hnotin : it.id ∉ its.map fun it => it.id := by
        rw [List.nodup_cons] at hnodup
        exact hnodup.1
      have hacc' : ∀ p ∈ acc ++
          [(it.id, (⟨"incomplete", some r.taskId, r.body⟩ : ExistingTask))],
          p.1 ∉ List.map (fun it => it.id) its := by
        intro p hp
        rcases List.mem_append.mp hp with hp | hp
        · exact fun hmem => hacc p hp (by simp [hmem])
        · rw [List.mem_singleton] at hp
          subst hp
          exact hnotin
      have hres := ih rs'
        (acc ++ [(it.id, ⟨"incomplete", some r.taskId, r.body⟩)]) htail
        hnodup' hacc'
      rw [hres, List.zip_cons_cons, List.map_cons, List.append_assoc]
      rfl

theorem tasksFold_pairs (items : List ChecklistItem) (rs : List RTask)
    (hF : List.Forall₂ (fun it r => FreshRendered it r ∧ cleanStr it.id) items rs)
    (hnodup : (items.map fun it => it.id).Nodup) :
    tasksFold (rs.map taskNode) = (items.zip rs).map pairOf := by
  unfold tasksFold
  rw [tasksFold_pairs_aux items rs [] hF hnodup (by simp)]
  rfl

theorem mapGet_of_mem_nodup :
    ∀ (ps : List (String × ExistingTask)) (k : String) (v : ExistingTask),
      (k, v) ∈ ps → (ps.map Prod.fst).Nodup → mapGet ps k = some v := by
  intro ps
  induction ps with
  | nil => intro k v hmem _; exact absurd hmem (List.not_mem_nil _)
  | cons p ps ih =>
    intro k v hmem hnodup
    rcases List.mem_cons.mp hmem with rfl | hmem
    · unfold mapGet
      rw [List.find?_cons_of_pos _ (by simp)]
      rfl
    · unfold mapGet
      rw [List.map_cons, List.nodup_cons] at hnodup
      have hne : ¬(p.1 = k) := by
        intro he
        exact hnodup.1 (he ▸ (List.mem_map.mpr ⟨(k, v), hmem, rfl⟩))
      rw [List.find?_cons_of_neg _ (by simpa using hne)]
      exact ih k v hmem hnodup.2

theorem renderItem_carried (m : List (String × ExistingTask)) (it : ChecklistItem)
    (r : RTask) (ids : List String) (now : Nat) (h : CarriedRel m it r) :
    renderItem m it ids now = (r, ids) := by
  obtain ⟨hm, ht, hs, hb, ha⟩ := h
  unfold renderItem
  simp only [hm]
  have hstat : (if ("incomplete" : String) = "complete" then "complete"
      else "incomplete") = "incomplete" := by decide
  cases hbody : r.body with
  | nil => exact absurd hbody hb
  | cons bb bs =>
    have hens : ensureAnchorInBodyXml (bb :: bs) it.id = bb :: bs := by
      rw [hbody] at ha
      simp [ensureAnchorInBodyXml, ha]
    simp only [hbody, hens, hstat, if_neg ht]
    cases r with
    | mk rt rs rb =>
      simp only at hs hbody
      rw [hs, hbody]

theorem renderItems_carried (m : List (String × ExistingTask)) (now : Nat) :
    ∀ (items : List ChecklistItem) (rs : List RTask) (ids : List String),
      List.Forall₂ (CarriedRel m) items rs →
      renderItems m now items ids = (rs, ids) := by
  intro items
  induction items with
  | nil =>
    intro rs ids hF
    cases hF
    rfl
  | cons it its ih =>
    intro rs ids hF
    cases hF with
    | cons hhead htail =>
      rename_i r rs'
      rw [renderItems, renderItem_carried m it r ids now hhead,
        ih rs' ids htail]

theorem renderSections_carried (m : List (String × ExistingTask)) (now : Nat) :
    ∀ (ss : List ChecklistSection) (rss : List (List RTask)) (ids : List String),
      List.Forall₂ (fun (s : ChecklistSection) rs =>
        List.Forall₂ (CarriedRel m) s.items rs) ss rss →
      renderSections m now ss ids = (sectionsChunks ss rss, ids) := by
  intro ss
  induction ss with
  | nil =>
    intro rss ids hF
    cases hF
    rfl
  | cons s ss ih =>
    intro rss ids hF
    cases hF with
    | cons hhead htail =>
      rename_i rs rss'
      rw [renderSections, renderItems_carried m now s.items rs ids hhead,
        ih rss' ids htail, sectionsChunks]

theorem forall₂_right_mem {α β : Type} {R : α → β → Prop} :
    ∀ {l1 : List α} {l2 : List β}, List.Forall₂ R l1 l2 → ∀ b ∈ l2, ∃ a, R a b := by
  intro l1 l2 h
  induction h with
  | nil => intro b hb; exact absurd hb (List.not_mem_nil b)
  | cons hh ht ih =>
    intro b hb
    rcases List.mem_cons.mp hb with rfl | hb
    · exact ⟨_, hh⟩
    · exact ih b hb

theorem forall₂_flatMap_flatten {R : ChecklistItem → RTask → Prop} :
    ∀ (ss : List ChecklistSection) (rss : List (List RTask)),
      List.Forall₂ (fun s rs => List.Forall₂ R s.items rs) ss rss →
      List.Forall₂ R (ss.flatMap fun s => s.items) rss.flatten := by
  intro ss
  induction ss with
  | nil =>
    intro rss h
    cases h
    exact List.Forall₂.nil
  | cons s ss ih =>
    intro rss h
    cases h with
    | cons hh htail =>
      rename_i rs rss'
      rw [List.flatMap_cons, List.flatten_cons]
      exact List.rel_append hh (ih rss' htail)

theorem zip_flat_eq :
    ∀ (ss : List ChecklistSection) (rss : List (List RTask)),
      List.Forall₂ (fun s rs => s.items.length = rs.length) ss rss →
      (ss.flatMap fun s => s.items).zip rss.flatten =
        (ss.zip rss).flatMap fun p => p.1.items.zip p.2 := by
  intro ss
  induction ss with
  | nil =>
    intro rss h
    cases h
    rfl
  | cons s ss ih =>
    intro rss h
    cases h with
    | cons hh htail =>
      rename_i rs rss'
      rw [List.flatMap_cons, List.flatten_cons, List.zip_append hh,
        ih rss' htail, List.zip_cons_cons, List.flatMap_cons]

theorem pairs_map_fst (items : List ChecklistItem) (rs : List RTask)
    (hlen : items.length ≤ rs.length) :
    ((items.zip rs).map pairOf).map Prod.fst = items.map fun it => it.id := by
  rw [List.map_map]
  have h1 : (Prod.fst ∘ pairOf) = fun p : ChecklistItem × RTask => p.1.id := rfl
  rw [h1]
  have h2 : (fun p : ChecklistItem × RTask => p.1.id) =
      (fun it : ChecklistItem => it.id) ∘ Prod.fst := rfl
  rw [h2, ← List.map_map, List.map_fst_zip items rs hlen]

theorem nested_strengthen (ss : List ChecklistSection) (rss : List (List RTask))
    (hF : List.Forall₂ (fun s rs => List.Forall₂ FreshRendered s.items rs) ss rss)
    (hc : ∀ s ∈ ss, ∀ it ∈ s.items, cleanStr it.id) :
    List.Forall₂ (fun s rs => List.Forall₂
      (fun it r => FreshRendered it r ∧ cleanStr it.id) s.items rs) ss rss := by
  rw [List.forall₂_iff_zip]
  refine ⟨hF.length_eq, ?_⟩
  intro s rs hmem
  have hsec := List.forall₂_zip hF hmem
  rw [List.forall₂_iff_zip]
  refine ⟨hsec.length_eq, ?_⟩
  intro it r hmem2
  exact ⟨List.forall₂_zip hsec hmem2,
    hc s (List.of_mem_zip hmem).1 it (List.of_mem_zip hmem2).1⟩

theorem carried_nested (ss : List ChecklistSection) (rss : List (List RTask))
    (hF : List.Forall₂ (fun s rs => List.Forall₂
      (fun it r => FreshRendered it r ∧ cleanStr it.id) s.items rs) ss rss)
    (hnodup : ((ss.flatMap fun s => s.items).map fun it => it.id).Nodup) :
    List.Forall₂ (fun s rs => List.Forall₂
      (CarriedRel (((ss.flatMap fun s => s.items).zip rss.flatten).map pairOf))
      s.items rs) ss rss := by
  have hflat := forall₂_flatMap_flatten ss rss hF
  have hkeys : ((((ss.flatMap fun s => s.items).zip rss.flatten).map pairOf).map
      Prod.fst).Nodup := by
    rw [pairs_map_fst _ _ (Nat.le_of_eq hflat.length_eq)]
    exact hnodup
  have hlenR : List.Forall₂ (fun (s : ChecklistSection) (rs : List RTask) =>
      s.items.length = rs.length) ss rss :=
    hF.imp fun _ _ h => h.length_eq
  have hzipeq := zip_flat_eq ss rss hlenR
  rw [List.forall₂_iff_zip]
  refine ⟨hF.length_eq, ?_⟩
  intro s rs hmem
  have hsec := List.forall₂_zip hF hmem
  rw [List.forall₂_iff_zip]
  refine ⟨hsec.length_eq, ?_⟩
  intro it r hmem2
  obtain ⟨⟨hs, hb, hd⟩, hc1, hc2, hc3⟩ := List.forall₂_zip hsec hmem2
  have hin : (it, r) ∈ (ss.flatMap fun s => s.items).zip rss.flatten := by
    rw [hzipeq]
    exact List.mem_flatMap.mpr ⟨(s, rs), hmem, hmem2⟩
  refine ⟨?_, hd.1, hs, ?_, ?_⟩
  · exact mapGet_of_mem_nodup _ it.id _ (List.mem_map.mpr ⟨(it, r), hin, rfl⟩) hkeys
  · rw [hb]
    simp
  · rw [hb]
    exact hasDirectAnchor_fresh it.id it.text hc1 hc2

theorem filter_not_contains_self (l : List String) :
    (l.filter fun k => !(l.contains k)) = [] := by
  rw [List.filter_eq_nil_iff]
  intro k hk
  simp
  exact hk

theorem isPanelEl_panelNodeReplaced (title : String) (inner : List XNode) :
    isPanelEl (panelNodeReplaced title inner) = true := by
  unfold panelNodeReplaced
  exact isPanelEl_shape _

theorem panelTitleText_panelNodeReplaced (title : String) (inner : List XNode)
    (h1 : escapeXml title = title) (h2 : trimStr title = title) :
    panelTitleText (panelNodeReplaced title inner) = title := by
  unfold panelNodeReplaced
  rw [panelTitleText_shape, h1, h2]

theorem replaceFirstRtb_panelNodeReplaced (title : String)
    (rtbKids inner : List XNode) :
    replaceFirstRtb (panelNodeReplaced title rtbKids) inner =
      panelNodeReplaced title inner := by
  rfl

/-- One sync pass over a document whose managed panel carries exactly the
tasks rendered by a previous fresh pass: the pass reads back the same index,
rebuilds the identical inner content, and splices it into the panel, so the
outcome is decided purely by the whitespace comparison of the two documents
(and the clock is never consulted). -/
theorem syncStep_carried (spec : ChecklistSpec) (pre rtbKids inner1 : List XNode)
    (rss1 : List (List RTask)) (m₂ : List (String × ExistingTask)) (incl : Bool)
    (now : Nat)
    (hm : m₂ = ((spec.sections.flatMap fun s => s.items).zip rss1.flatten).map pairOf)
    (ht : cleanStr (panelTitleOf spec))
    (hpre : ∀ x ∈ forestAll pre,
      ¬(isPanelEl x = true ∧ panelTitleText x = panelTitleOf spec))
    (hK : (forestAll rtbKids).filter isTaskEl = (forestAll inner1).filter isTaskEl)
    (hinner : inner1 = List.intersperse (.text "\n")
      ((if spec.title = "" then [] else [h2Node spec.title]) ++
        sectionsChunks spec.sections rss1))
    (hF : List.Forall₂ (fun s rs => List.Forall₂
      (fun it r => FreshRendered it r ∧ cleanStr it.id) s.items rs)
      spec.sections rss1)
    (hnodup : ((spec.sections.flatMap fun s => s.items).map fun it => it.id).Nodup) :
    syncStep spec
        (pre ++ [panelNodeReplaced (panelTitleOf spec) rtbKids, .text "\n"]) incl now =
      if normalizeXml (xmlOfF
          (pre ++ [panelNodeReplaced (panelTitleOf spec) rtbKids, .text "\n"])) =
        normalizeXml (xmlOfF
          (pre ++ [panelNodeReplaced (panelTitleOf spec) inner1, .text "\n"])) then
        ⟨pre ++ [panelNodeReplaced (panelTitleOf spec) rtbKids, .text "\n"], false⟩
      else ⟨pre ++ [panelNodeReplaced (panelTitleOf spec) inner1, .text "\n"], true⟩ := by
  have hflat := forall₂_flatMap_flatten spec.sections rss1 hF
  have hP1 : isPanelEl (panelNodeReplaced (panelTitleOf spec) rtbKids) = true :=
    isPanelEl_panelNodeReplaced _ _
  have hP2 : panelTitleText (panelNodeReplaced (panelTitleOf spec) rtbKids) =
      panelTitleOf spec :=
    panelTitleText_panelNodeReplaced _ _ ht.1 ht.2.1
  have hNoTasks : ∀ rs ∈ rss1, ∀ r ∈ rs, NoTasksIn r.body := by
    intro rs hrs r hr
    obtain ⟨s, hsF⟩ := forall₂_right_mem hF rs hrs
    obtain ⟨it, hitF⟩ := forall₂_right_mem hsF r hr
    obtain ⟨⟨_, hb, _⟩, _⟩ := hitF
    rw [hb]
    exact noTasksIn_fresh it.id it.text
  have htasks : (strictDesc (panelNodeReplaced (panelTitleOf spec) rtbKids)).filter
      isTaskEl = rss1.flatten.map taskNode := by
    rw [tasks_of_panelNodeReplaced, hK, hinner]
    exact filter_tasks_inner spec.title spec.sections rss1 hF.length_eq hNoTasks
  have hread : readExistingTasks
      (pre ++ [panelNodeReplaced (panelTitleOf spec) rtbKids, .text "\n"])
      (panelTitleOf spec) = m₂ := by
    unfold readExistingTasks
    rw [findPanel_front pre [.text "\n"] _ _ hpre hP1 hP2]
    show tasksFold ((strictDesc (panelNodeReplaced (panelTitleOf spec) rtbKids)).filter
      isTaskEl) = m₂
    rw [htasks, hm]
    exact tasksFold_pairs _ _ hflat hnodup
  have hm2keys : m₂.map Prod.fst =
      (spec.sections.flatMap fun s => s.items).map fun it => it.id := by
    rw [hm]
    exact pairs_map_fst _ _ (Nat.le_of_eq hflat.length_eq)
  have hcarried : List.Forall₂ (fun s rs => List.Forall₂ (CarriedRel m₂) s.items rs)
      spec.sections rss1 := by
    rw [hm]
    exact carried_nested spec.sections rss1 hF hnodup
  have hsecs : ∀ ids1 : List String,
      renderSections m₂ now spec.sections ids1 =
        (sectionsChunks spec.sections rss1, ids1) :=
    fun ids1 => renderSections_carried m₂ now spec.sections rss1 ids1 hcarried
  have hbuild : ∀ ids1 : List String,
      (buildPanelInner spec m₂ ids1 incl now).1 = inner1 := by
    intro ids1
    cases incl with
    | false =>
      show List.intersperse (.text "\n")
        ((if spec.title = "" then [] else [h2Node spec.title]) ++
          (renderSections m₂ now spec.sections ids1).1) = inner1
      rw [hsecs ids1, hinner]
    | true =>
      simp only [buildPanelInner, reduceIte]
      rw [hm2keys, filter_not_contains_self, hsecs ids1, hinner]
  have hrep : replaceFirstRtb (panelNodeReplaced (panelTitleOf spec) rtbKids)
      inner1 = panelNodeReplaced (panelTitleOf spec) inner1 :=
    replaceFirstRtb_panelNodeReplaced _ _ _
  have hPelem : panelNodeReplaced (panelTitleOf spec) rtbKids =
      XNode.elem "ac:structured-macro" [("ac:name", "panel")]
        (XForest.ofList [.text "\n  ",
          xel "ac:parameter" [("ac:name", "title")]
            [.text (escapeXml (panelTitleOf spec))],
          .text "\n  ", xel "ac:rich-text-body" [] rtbKids, .text "\n"]) := rfl
  have hP1e := hP1
  rw [hPelem] at hP1e
  have hP2e := hP2
  rw [hPelem] at hP2e
  have hspN : spN (panelTitleOf spec) inner1
      (panelNodeReplaced (panelTitleOf spec) rtbKids) =
      (replaceFirstRtb (panelNodeReplaced (panelTitleOf spec) rtbKids) inner1,
        true) := by
    rw [hPelem]
    exact spN_hit _ _ _ _ _ hP1e hP2e
  have hspL2 : spL (panelTitleOf spec) inner1
      (panelNodeReplaced (panelTitleOf spec) rtbKids :: [.text "\n"]) =
      (panelNodeReplaced (panelTitleOf spec) inner1 :: [.text "\n"], true) := by
    rw [spL, hspN, hrep]
  have hspLD : spL (panelTitleOf spec) inner1
      (pre ++ [panelNodeReplaced (panelTitleOf spec) rtbKids, .text "\n"]) =
      (pre ++ [panelNodeReplaced (panelTitleOf spec) inner1, .text "\n"], true) := by
    have h := spL_append_noMatch (panelTitleOf spec) inner1 pre
      (panelNodeReplaced (panelTitleOf spec) rtbKids :: [.text "\n"]) hpre
      (by rw [hspL2])
    rw [hspL2] at h
    exact h
  have hset : setManagedPanel
      (pre ++ [panelNodeReplaced (panelTitleOf spec) rtbKids, .text "\n"])
      (panelTitleOf spec) inner1 =
      pre ++ [panelNodeReplaced (panelTitleOf spec) inner1, .text "\n"] := by
    unfold setManagedPanel
    rw [hspLD]
  simp only [syncStep]
  rw [hread, hbuild (collectAllTaskIdsOnPage
    (pre ++ [panelNodeReplaced (panelTitleOf spec) rtbKids, .text "\n"])), hset]

theorem three_sync_aux (spec : ChecklistSpec) (pre inner1 : List XNode)
    (rss1 : List (List RTask)) (m₂ : List (String × ExistingTask)) (incl : Bool)
    (n2 n3 : Nat)
    (hm : m₂ = ((spec.sections.flatMap fun s => s.items).zip rss1.flatten).map pairOf)
    (ht : cleanStr (panelTitleOf spec))
    (hpre : ∀ x ∈ forestAll pre,
      ¬(isPanelEl x = true ∧ panelTitleText x = panelTitleOf spec))
    (hinner : inner1 = List.intersperse (.text "\n")
      ((if spec.title = "" then [] else [h2Node spec.title]) ++
        sectionsChunks spec.sections rss1))
    (hF : List.Forall₂ (fun s rs => List.Forall₂
      (fun it r => FreshRendered it r ∧ cleanStr it.id) s.items rs)
      spec.sections rss1)
    (hnodup : ((spec.sections.flatMap fun s => s.items).map fun it => it.id).Nodup) :
    (syncStep spec (syncStep spec
        (pre ++ [panelNodeReplaced (panelTitleOf spec)
          (XNode.text "\n" :: inner1 ++ [XNode.text "\n  "]), .text "\n"])
        incl n2).stored incl n3).updated = false := by
  have hrun2 := syncStep_carried spec pre
    (XNode.text "\n" :: inner1 ++ [XNode.text "\n  "]) inner1 rss1 m₂ incl n2
    hm ht hpre (filter_tasks_wrap inner1) hinner hF hnodup
  rw [hrun2]
  by_cases hcond : normalizeXml (xmlOfF
      (pre ++ [panelNodeReplaced (panelTitleOf spec)
        (XNode.text "\n" :: inner1 ++ [XNode.text "\n  "]), .text "\n"])) =
    normalizeXml (xmlOfF
      (pre ++ [panelNodeReplaced (panelTitleOf spec) inner1, .text "\n"]))
  · rw [if_pos hcond]
    show (syncStep spec
        (pre ++ [panelNodeReplaced (panelTitleOf spec)
          (XNode.text "\n" :: inner1 ++ [XNode.text "\n  "]), .text "\n"])
        incl n3).updated = false
    rw [syncStep_carried spec pre
      (XNode.text "\n" :: inner1 ++ [XNode.text "\n  "]) inner1 rss1 m₂ incl n3
      hm ht hpre (filter_tasks_wrap inner1) hinner hF hnodup, if_pos hcond]
  · rw [if_neg hcond]
    show (syncStep spec
        (pre ++ [panelNodeReplaced (panelTitleOf spec) inner1, .text "\n"])
        incl n3).updated = false
    rw [syncStep_carried spec pre inner1 inner1 rss1 m₂ incl n3
      hm ht hpre rfl hinner hF hnodup, if_pos rfl]

/-- Claim C1 (amended): running the sync repeatedly with no external edits
reaches a fixed point by the third run.  For a spec whose panel title and
item ids survive escaping and trimming verbatim (and whose ids are pairwise
distinct), starting from a page with no managed panel, the first sync
appends the panel, the second sync may still report an update (the appended
template carries whitespace around the inner content that the replace path
drops), and the third sync always reports updated = false, regardless of
the clock values of the three runs. -/
theorem claim_c1_amended (spec : ChecklistSpec) (doc0 : List XNode) (incl : Bool)
    (n1 n2 n3 : Nat)
    (ht : cleanStr (panelTitleOf spec))
    (hc : ∀ s ∈ spec.sections, ∀ it ∈ s.items, cleanStr it.id)
    (hnodup : ((spec.sections.flatMap fun s => s.items).map fun it => it.id).Nodup)
    (hno : NoMatchingPanel doc0 (panelTitleOf spec)) :
    (syncStep spec (syncStep spec (syncStep spec doc0 incl n1).stored incl n2).stored
      incl n3).updated = false := by
  obtain ⟨rss1, hrs, hFfresh⟩ :=
    renderSections_empty_chunks n1 spec.sections (collectAllTaskIdsOnPage doc0)
  have hF2 := nested_strengthen spec.sections rss1 hFfresh hc
  have hinner : (buildPanelInner spec [] (collectAllTaskIdsOnPage doc0) incl n1).1 =
      List.intersperse (.text "\n")
        ((if spec.title = "" then [] else [h2Node spec.title]) ++
          sectionsChunks spec.sections rss1) := by
    have h1 := buildPanelInner_empty_map spec (collectAllTaskIdsOnPage doc0) incl n1
    have h2 : (buildPanelInner spec [] (collectAllTaskIdsOnPage doc0) incl n1).1 =
        List.intersperse (.text "\n")
          ((if spec.title = "" then [] else [h2Node spec.title]) ++
            (renderSections [] n1 spec.sections (collectAllTaskIdsOnPage doc0)).1) := by
      rw [h1]
    rw [h2, hrs]
  have hpre : ∀ x ∈ forestAll
      (if xmlOfF doc0 = "" then [] else doc0 ++ [XNode.text "\n"]),
      ¬(isPanelEl x = true ∧ panelTitleText x = panelTitleOf spec) := by
    by_cases h0 : xmlOfF doc0 = ""
    · rw [if_pos h0, forestAll_nil]
      intro x hx
      exact absurd hx (List.not_mem_nil x)
    · rw [if_neg h0]
      intro x hx
      rw [forestAll_append] at hx
      rcases List.mem_append.mp hx with hx | hx
      · exact hno x hx
      · rw [forestAll_cons, forestAll_nil, nodeAll_text] at hx
        simp only [List.append_nil, List.mem_cons, List.not_mem_nil, or_false] at hx
        subst hx
        intro hand
        exact absurd hand.1 (by decide)
  have hD1 : (syncStep spec doc0 incl n1).stored =
      (if xmlOfF doc0 = "" then [] else doc0 ++ [XNode.text "\n"]) ++
        [panelNodeReplaced (panelTitleOf spec)
          (XNode.text "\n" ::
            (buildPanelInner spec [] (collectAllTaskIdsOnPage doc0) incl n1).1 ++
            [XNode.text "\n  "]), .text "\n"] := by
    rw [syncStep_fresh spec doc0 incl n1 hno]
    rfl
  rw [hD1]
  exact three_sync_aux spec
    (if xmlOfF doc0 = "" then [] else doc0 ++ [XNode.text "\n"])
    ((buildPanelInner spec [] (collectAllTaskIdsOnPage doc0) incl n1).1)
    rss1 _ incl n2 n3 rfl ht hpre hinner hF2 hnodup

/-- Closed witness that the amended C1 theorem applies: a concrete one-item
spec synced three times from the empty page reports no update on run three. -/
theorem claim_c1_amended_witness :
    (syncStep ⟨"", "", [⟨"", [⟨"x", "t"⟩]⟩]⟩
      (syncStep ⟨"", "", [⟨"", [⟨"x", "t"⟩]⟩]⟩
        (syncStep ⟨"", "", [⟨"", [⟨"x", "t"⟩]⟩]⟩ [] false 0).stored false 5).stored
      false 7).updated = false :=
  claim_c1_amended ⟨"", "", [⟨"", [⟨"x", "t"⟩]⟩]⟩ [] false 0 5 7
    (by unfold cleanStr; decide) (by unfold cleanStr; decide) (by decide)
    (by unfold NoMatchingPanel; decide)
